import Mathlib

/-!
Verification of the run-staging orchestrator of `aeqwabun`
(`src/aeqwabun/synspec/synspec.py`), as a shallow embedding in Lean 4.

Paths are strings; the filesystem is a record of existing files and
directories (symbolic links are modelled as ordinary file entries); the
opaque collaborators (`units.readinput`, `units.read55f`, the solver
process) are fields of an environment record; each phase of `run`
returns an optional error, the updated state and the list of effect
events it produced, mirroring the Python statement by statement.
-/

namespace Aeqwabun

/-! ### Path model (POSIX paths as strings) -/

/-- Whether the path string is absolute (starts with a slash),
matching `pathlib.PurePosixPath.is_absolute`. -/
def isAbsolute (s : String) : Bool :=
  match s.data with
  | '/' :: _ => true
  | _ => false

/-- Split a character list at slashes. -/
def splitSlashAux (cur : List Char) : List Char → List (List Char)
  | [] => [cur.reverse]
  | c :: rest => if c = '/' then cur.reverse :: splitSlashAux [] rest else splitSlashAux (c :: cur) rest

/-- The slash-separated components of a path, dropping empty components
and `"."` components (what `pathlib` discards when parsing a path). -/
def rawSegs (s : String) : List String :=
  ((splitSlashAux [] s.data).map fun l => String.mk l).filter fun seg => seg ≠ "" && seg ≠ "."

/-- Collapse `".."` components against the root, as `Path.resolve` does
for an absolute path (our model does not follow symbolic links). -/
def normSegs (l : List String) : List String :=
  l.foldl (fun acc seg => if seg = ".." then acc.dropLast else acc ++ [seg]) []

/-- Characters of a slash-prefixed join of components. -/
def joinAbsAux : List String → List Char
  | [] => []
  | s :: rest => '/' :: (s.data ++ joinAbsAux rest)

/-- Reassemble an absolute path from components (the root when there are
none). -/
def joinAbs (segs : List String) : String :=
  if segs.isEmpty then "/" else String.mk (joinAbsAux segs)

/-- Python `Path(p).resolve()` with `base` as the current directory (`base` is
an absolute path): absolute `p` is normalised, relative `p` is joined to
`base` and normalised. Also used for `Path(base) / p` followed by use as
a concrete location, since the filesystem model stores normal forms. -/
def resolveIn (base p : String) : String :=
  if isAbsolute p then joinAbs (normSegs (rawSegs p))
  else joinAbs (normSegs (rawSegs base ++ rawSegs p))

/-- Python `Path(p).name`: the final component of a path. -/
def basename (p : String) : String :=
  (normSegs (rawSegs p)).getLast?.getD ""

/-- The first component of `str(Path(x)).split("/", maxsplit=1)[0]` for a
relative path `x`: `pathlib` drops `"."` and empty components, so this is
the first remaining component (or `"."` when none remain). -/
def pyFirstSeg (s : String) : String :=
  (rawSegs s).headD "."

/-! ### Python `str.format` with `model` / `modelpath` keys -/

/-- One scanning step bounded by fuel: replace each occurrence of
`"\x7bmodel\x7d"` by `model` and of `"\x7bmodelpath\x7d"` by `modelpath`
(the longer key is tried first, as Python's parser reads up to the
closing brace). -/
def pyFormatAux (model modelpath : List Char) : Nat → List Char → List Char
  | 0, _ => []
  | _ + 1, [] => []
  | fuel + 1, c :: rest =>
    if ('{' :: "modelpath".data ++ ['}']).isPrefixOf (c :: rest) then
      modelpath ++ pyFormatAux model modelpath fuel ((c :: rest).drop 11)
    else if ('{' :: "model".data ++ ['}']).isPrefixOf (c :: rest) then
      model ++ pyFormatAux model modelpath fuel ((c :: rest).drop 7)
    else
      c :: pyFormatAux model modelpath fuel rest

/-- Python `template.format(model=model, modelpath=modelpath)`. -/
def pyFormat (template model modelpath : String) : String :=
  String.mk (pyFormatAux model.data modelpath.data template.data.length template.data)

/-- Python `template.format(model=model)` (used where the source passes only the
`model` key: the `fort.55` template and `_check_files`). -/
def pyFormatModel (template model : String) : String :=
  String.mk (pyFormatAux model.data "{modelpath}".data template.data.length template.data)

/-! ### Filesystem model -/

/-- A filesystem snapshot: the current working directory (an absolute
normalised path), the set of existing files (symbolic links included; a
staged link is modelled as an existing file entry) and the set of
existing directories, all stored as normalised absolute paths. -/
structure FS where
  cwd : String
  files : List String
  dirs : List String
deriving Repr, DecidableEq

/-- Absolutise a path against the snapshot's working directory. -/
def FS.abs (fs : FS) (p : String) : String := resolveIn fs.cwd p

/-- Python `Path(p).is_file()`. -/
def FS.isFile (fs : FS) (p : String) : Bool := fs.files.contains (fs.abs p)

/-- Python `Path(p).is_dir()`. -/
def FS.isDir (fs : FS) (p : String) : Bool := fs.dirs.contains (fs.abs p)

/-- Python `Path(p).exists()`. -/
def FS.pathExists (fs : FS) (p : String) : Bool := fs.isFile p || fs.isDir p

/-- Record `p` as an existing file (creation or replacement). -/
def FS.addFile (fs : FS) (p : String) : FS :=
  { fs with files := if fs.files.contains (fs.abs p) then fs.files else fs.abs p :: fs.files }

/-- Python `Path(p).unlink()`. -/
def FS.unlink (fs : FS) (p : String) : FS :=
  { fs with files := fs.files.erase (fs.abs p) }

/-- Record `p` as an existing directory. -/
def FS.addDir (fs : FS) (p : String) : FS :=
  { fs with dirs := if fs.dirs.contains (fs.abs p) then fs.dirs else fs.abs p :: fs.dirs }

/-- Whether `p` lies strictly below directory `dir`. -/
def isUnder (dir p : String) : Bool :=
  (dir ++ "/").data.isPrefixOf p.data

/-- Delete directory `d` and everything below it (cleanup of a
`tempfile.TemporaryDirectory`). -/
def FS.removeTree (fs : FS) (d : String) : FS :=
  { fs with
    files := fs.files.filter fun p => ¬ (p = d ∨ isUnder d p)
    dirs := fs.dirs.filter fun p => ¬ (p = d ∨ isUnder d p) }

/-! ### Link table (a Python `dict` preserving insertion order) -/

/-- Python `links.get(k)` on the ordered association list modelling
`self.linkfiles`. -/
def getA : List (String × String) → String → Option String
  | [], _ => none
  | (k, v) :: rest, key => if k = key then some v else getA rest key

/-- Python `links[k] = v`: replace in place when the key exists, else append
(Python `dict` update semantics, insertion order preserved). -/
def setA : List (String × String) → String → String → List (String × String)
  | [], key, v => [(key, v)]
  | (k, w) :: rest, key, v => if k = key then (key, v) :: rest else (k, w) :: setA rest key v

/-! ### Errors, effect events, environment -/

/-- Python exceptions surfaced by `Synspec`. `fileNotFound` carries the
message (for `open`/`copyfile` it names the path, for the explicit
raises it is the formatted message of the source). -/
inductive PyErr where
  | notImplemented (msg : String)
  | fileNotFound (msg : String)
  | fileExists (path : String)
  | keyError (key : String)
  | calledProcessError (returncode : Nat)
  | busy
deriving Repr, DecidableEq

/-- Observable filesystem / process effects, in program order. -/
inductive Ev where
  | deleted (path : String)
  | symlinked (src dst : String)
  | created (path : String)
  | copied (src dst : String)
  | lockAcq (dir lockfn : String)
  | lockRel (dir : String)
  | proc (args : List String) (stdin : String) (stdout : String)
      (stderr : Option String) (cwd : String) (check : Bool)
deriving Repr, DecidableEq

/-- Parse result of `units.readinput` on the model's `.5` descriptor:
the optional `finstd` entry and, when the `ions` key is present, the
`filei` field of each ion record (the only fields `_copy_to_rundir`
reads). -/
structure InputDescr where
  finstd : Option String
  ions : Option (List String)
deriving Repr, DecidableEq

/-- Parse result of `units.read55f` on `fort.55`: the only field
`_copy_to_rundir` reads. -/
structure Fort55 where
  ichemc : Int
deriving Repr, DecidableEq

/-- The opaque collaborators of one `run` call: the two descriptor
decoders (as functions of the absolute path of the file they read), the
set of lock directories already held by other processes, the fresh path
`tempfile.TemporaryDirectory` would produce, the solver's exit status
and the output files (run-directory-relative names) the solver process
leaves behind. -/
structure Env where
  readinput : String → InputDescr
  read55f : String → Fort55
  heldLocks : List String
  tmpdir : String
  solverExit : Nat
  solverCreates : List String

/-! ### The `Synspec` class -/

/-- Instance state of the `Synspec` class: solver path, version and the
link table `self.linkfiles` (destination name ↦ source template). -/
structure Synspec where
  version : Nat
  synspec : String
  linkfiles : List (String × String)
deriving Repr, DecidableEq

/-- Python `Synspec.__init__`: rejects any version other than 51 and installs
the four default links. -/
def Synspec.mk51 (synspecpath : String) (version : Nat) : Except PyErr Synspec :=
  if version ≠ 51 then .error (.notImplemented "Only version 51 is supported")
  else .ok
    { version := version
      synspec := synspecpath
      linkfiles :=
        [("fort.19", "fort.19"), ("fort.55", "fort.55"),
         ("{model}.5", "{modelpath}.5"), ("{model}.7", "{modelpath}.7")] }

/-- Python `Synspec.add_link(linkfrom, linkto=None)`. -/
def Synspec.add_link (sp : Synspec) (linkfrom : String) (linkto : Option String) : Synspec :=
  { sp with linkfiles := setA sp.linkfiles (linkto.getD linkfrom) linkfrom }

/-! ### Phases of `Synspec.run` -/

/-- The deletion loop of `_remove_potential_outfiles`. -/
def rpoLoop (outdir outfile : String) : List String → FS → FS × List Ev
  | [], fs => (fs, [])
  | ext :: rest, fs =>
    let f := resolveIn outdir (outfile ++ "." ++ ext)
    if fs.isFile f then
      let out := rpoLoop outdir outfile rest (fs.unlink f)
      (out.1, .deleted f :: out.2)
    else rpoLoop outdir outfile rest fs

/-- Python `Synspec._remove_potential_outfiles`: when the output directory
exists, delete each existing `outfile.ext` for the four data extensions
(the log is not in the list). -/
def removePotentialOutfiles (outdir outfile : String) (fs : FS) : FS × List Ev :=
  if fs.isDir outdir then rpoLoop outdir outfile ["spec", "iden", "eqws", "cont"] fs
  else (fs, [])

/-- The references collected from the parsed input descriptor: `finstd`
when truthy (Python: present and non-empty), then every ion `filei`. -/
def collectRefs (d : InputDescr) : List String :=
  (match d.finstd with
   | some s => if s ≠ "" then [s] else []
   | none => []) ++ d.ions.getD []

/-- First-occurrence deduplication, skipping elements already seen. -/
def dedupFirstAux (seen : List String) : List String → List String
  | [] => []
  | x :: rest =>
    if seen.contains x then dedupFirstAux seen rest
    else x :: dedupFirstAux (x :: seen) rest

/-- First-occurrence deduplication (the source builds a Python `set`;
our model fixes its iteration order to first occurrence). -/
def dedupFirst (l : List String) : List String := dedupFirstAux [] l

/-- The candidate dependency names of `_copy_to_rundir`: drop absolute
references, keep the first path component of each relative reference,
deduplicate. -/
def discoverReqs (d : InputDescr) : List String :=
  dedupFirst ((collectRefs d).filterMap fun x =>
    if isAbsolute x then none else some (pyFirstSeg x))

/-- The merge loop of `_copy_to_rundir`: each candidate that exists on
disk (relative to the working directory) and is not already a
destination key becomes a self-mapped entry. -/
def mergeReqs (fs : FS) : List (String × String) → List String → List (String × String)
  | links, [] => links
  | links, r :: rest =>
    mergeReqs fs (if fs.pathExists r && (getA links r).isNone then setA links r r else links) rest

/-- The `fort.56` detection of `_copy_to_rundir`: when no `fort.56`
entry exists, read `ichemc` from the `fort.55` source (template formatted
with the model name); a non-zero flag requires `fort.56` to be a file in
the working directory, adding it self-mapped or failing. -/
def detectFort56 (env : Env) (model : String) (fs : FS)
    (links : List (String × String)) : Option PyErr × List (String × String) :=
  match getA links "fort.56" with
  | some _ => (none, links)
  | none =>
    match getA links "fort.55" with
    | none => (some (.keyError "fort.55"), links)
    | some t =>
      let cofigfile := pyFormatModel t model
      if fs.isFile cofigfile then
        if (env.read55f (fs.abs cofigfile)).ichemc ≠ 0 then
          if fs.isFile "fort.56" then (none, setA links "fort.56" "fort.56")
          else (some (.fileNotFound "Need for fort.56 detected but not found"), links)
        else (none, links)
      else (some (.fileNotFound (fs.abs cofigfile)), links)

/-- The link loop of `_copy_to_rundir`. For each `(dst, src)` entry the
link is skipped exactly when the run directory is the current working
directory and the formatted source and destination resolve to the same
absolute path; otherwise a symbolic link is force-created at
`rundir / dst` (modelled from the spec: `utils.symlinkf` force-creates
the link, replacing any existing file or link at the destination). -/
def stageLinks (model modelpath rundir : String) : List (String × String) → FS → FS × List Ev
  | [], fs => (fs, [])
  | p :: rest, fs =>
    let srcR := resolveIn fs.cwd (pyFormat p.2 model modelpath)
    let dstR := resolveIn fs.cwd (pyFormat p.1 model modelpath)
    if rundir = resolveIn fs.cwd "." && srcR = dstR then
      stageLinks model modelpath rundir rest fs
    else
      let dst := resolveIn rundir (pyFormat p.1 model modelpath)
      let out := stageLinks model modelpath rundir rest (fs.addFile dst)
      (out.1, .symlinked srcR dst :: out.2)

/-- Python `Synspec._copy_to_rundir`: read the input descriptor, merge the
discovered dependencies into the link table, detect `fort.56`, then
stage every link. Mutations of the link table made before a raise
persist, as in the source. -/
def copyToRundir (env : Env) (model modelpath rundir : String) (sp : Synspec)
    (fs : FS) : Option PyErr × Synspec × FS × List Ev :=
  match getA sp.linkfiles "{model}.5" with
  | none => (some (.keyError "{model}.5"), sp, fs, [])
  | some t =>
    let inputfile := pyFormat t model modelpath
    if fs.isFile inputfile then
      let d := env.readinput (fs.abs inputfile)
      let links1 := mergeReqs fs sp.linkfiles (discoverReqs d)
      match detectFort56 env model fs links1 with
      | (some e, links2) => (some e, { sp with linkfiles := links2 }, fs, [])
      | (none, links2) =>
        let staged := stageLinks model modelpath rundir links2 fs
        (none, { sp with linkfiles := links2 }, staged.1, staged.2)
    else (some (.fileNotFound (fs.abs inputfile)), sp, fs, [])

/-- Python `Synspec._check_files`: the first of the four required names (model
placeholder substituted) that does not exist in the run directory
produces a `FileNotFoundError` naming the absolute expected path. -/
def checkFiles (model rundir : String) (fs : FS) : Option PyErr :=
  match ["fort.19", "fort.55", "{model}.5", "{model}.7"].find?
      (fun f => ¬ fs.pathExists (resolveIn rundir (pyFormatModel f model))) with
  | some f => some (.fileNotFound (resolveIn rundir (pyFormatModel f model) ++ " not found"))
  | none => none

/-- The output files the solver process leaves in the run directory,
with their creation events. -/
def solverDrop (rundir : String) : List String → FS → FS × List Ev
  | [], fs => (fs, [])
  | n :: rest, fs =>
    let p := resolveIn rundir n
    let out := solverDrop rundir rest (fs.addFile p)
    (out.1, .created p :: out.2)

/-- Python `Synspec._run`: force-create the `fort.8 → {model}.7` link (modelled
from the spec: `utils.symlinkf`), open `{model}.5` for reading and
`fort.log` for writing, run the solver with `stdin` the descriptor,
`stdout` the log, `stderr` not redirected, `cwd` the run directory and
`check=True`; the solver's own output files appear in the run directory
before a non-zero exit is raised. -/
def runSolver (env : Env) (synspecpath model rundir : String) (fs : FS) :
    Option PyErr × FS × List Ev :=
  let dst8 := resolveIn rundir "fort.8"
  let fs := fs.addFile dst8
  let tr := [Ev.symlinked (model ++ ".7") dst8]
  let mi := resolveIn rundir (model ++ ".5")
  if fs.isFile mi then
    let logf := resolveIn rundir "fort.log"
    let fs := fs.addFile logf
    let tr := tr ++ [Ev.created logf, Ev.proc [synspecpath] mi logf none rundir true]
    let out := solverDrop rundir env.solverCreates fs
    let fs := out.1
    let tr := tr ++ out.2
    if env.solverExit = 0 then (none, fs, tr)
    else (some (.calledProcessError env.solverExit), fs, tr)
  else (some (.fileNotFound mi), fs, tr)

/-- Python `shutil.copyfile` over a list of `(src, dst)` pairs, stopping at the
first missing source. -/
def copyPairs : List (String × String) → FS → Option PyErr × FS × List Ev
  | [], fs => (none, fs, [])
  | (s, d) :: rest, fs =>
    if fs.isFile s then
      let out := copyPairs rest (fs.addFile d)
      (out.1, out.2.1, .copied s d :: out.2.2)
    else (some (.fileNotFound s), fs, [])

/-- The five copies of `_extract_outfiles`, as `(source, destination)`
pairs of absolute paths. -/
def extractPairs (rundir outdir outfile : String) : List (String × String) :=
  [("7", "spec"), ("12", "iden"), ("16", "eqws"), ("17", "cont")].map
    (fun p => (resolveIn rundir ("fort." ++ p.1), resolveIn outdir (outfile ++ "." ++ p.2)))
  ++ [(resolveIn rundir "fort.log", resolveIn outdir (outfile ++ ".log"))]

/-- Python `Synspec._extract_outfiles`: `outdir.mkdir(exist_ok=True)`, then copy
the four fixed output units and the log to the external names. -/
def extractOutfiles (rundir outdir outfile : String) (fs : FS) :
    Option PyErr × FS × List Ev :=
  if fs.isDir outdir then copyPairs (extractPairs rundir outdir outfile) fs
  else if fs.isFile outdir then (some (.fileExists (fs.abs outdir)), fs, [])
  else copyPairs (extractPairs rundir outdir outfile) (fs.addDir outdir)

/-- The body of the `with rdprovider() as rundir:` block of
`Synspec.run`: cleanup, staging, verification, solver, extraction, in
order, stopping at the first raise. -/
def runBody (env : Env) (model modelpath rundir outdir outfile : String)
    (sp : Synspec) (fs : FS) : Option PyErr × Synspec × FS × List Ev :=
  let r := removePotentialOutfiles outdir outfile fs
  match copyToRundir env model modelpath rundir sp r.1 with
  | (some e, sp, fs, tr) => (some e, sp, fs, r.2 ++ tr)
  | (none, sp, fs, tr) =>
    match checkFiles model rundir fs with
    | some e => (some e, sp, fs, r.2 ++ tr)
    | none =>
      match runSolver env sp.synspec model rundir fs with
      | (some e, fs, tr2) => (some e, sp, fs, r.2 ++ tr ++ tr2)
      | (none, fs, tr2) =>
        let out := extractOutfiles rundir outdir outfile fs
        (out.1, sp, out.2.1, r.2 ++ tr ++ tr2 ++ out.2.2)

/-- The result of one `Synspec.run` call: the raised exception (if any),
the instance state after the call, the final filesystem and the effect
trace. -/
structure RunOut where
  err : Option PyErr
  sp : Synspec
  fs : FS
  tr : List Ev
deriving Repr, DecidableEq

/-- Python `Synspec.run(model, rundir, outdir, outfile)`. `rundir? = none`
models `rundir=None` (temp-directory mode); otherwise the run directory
is resolved and created, and the directory lock is taken for the
duration of the body (modelled from the spec: `utils.folderlock` is a
scoped acquisition over `rundir` with lock file `synspec.lock` that
fails with a busy error when another process holds the same lock and
guarantees release on every exit path). -/
def Synspec.run (sp : Synspec) (env : Env) (model : String)
    (rundir? outdir? outfile? : Option String) (fs0 : FS) : RunOut :=
  let modelpath := resolveIn fs0.cwd model
  let model' := basename modelpath
  match rundir? with
  | none =>
    let outdirRaw := outdir?.getD fs0.cwd
    let rundir := resolveIn fs0.cwd env.tmpdir
    let outdir := resolveIn fs0.cwd outdirRaw
    let outfile := outfile?.getD model'
    let fs := fs0.addDir rundir
    let b := runBody env model' modelpath rundir outdir outfile sp fs
    { err := b.1, sp := b.2.1, fs := b.2.2.1.removeTree rundir, tr := b.2.2.2 }
  | some rd =>
    let rundir := resolveIn fs0.cwd rd
    if fs0.isFile rundir then
      { err := some (.fileExists rundir), sp := sp, fs := fs0, tr := [] }
    else
      let fs := if fs0.isDir rundir then fs0 else fs0.addDir rundir
      let outdir := resolveIn fs0.cwd (outdir?.getD rundir)
      let outfile := outfile?.getD model'
      if env.heldLocks.contains rundir then
        { err := some .busy, sp := sp, fs := fs, tr := [] }
      else
        let b := runBody env model' modelpath rundir outdir outfile sp fs
        { err := b.1, sp := b.2.1, fs := b.2.2.1
          tr := Ev.lockAcq rundir "synspec.lock" :: b.2.2.2 ++ [Ev.lockRel rundir] }

/-! ### Event classifiers -/

/-- The path an event brings into existence, if any. -/
def Ev.createsP : Ev → Option String
  | .symlinked _ d => some d
  | .created p => some p
  | .copied _ d => some d
  | _ => none

/-- Whether the event is the process spawn. -/
def Ev.isProc : Ev → Bool
  | .proc .. => true
  | _ => false

/-- Whether the event is a lock acquisition or release. -/
def Ev.isLock : Ev → Bool
  | .lockAcq .. => true
  | .lockRel _ => true
  | _ => false

/-- Whether the event is a file copy. -/
def Ev.isCopied : Ev → Bool
  | .copied .. => true
  | _ => false

/-! ### Derived run parameters -/

/-- The resolved run directory of a persistent-mode call. -/
def rundirOf (fs0 : FS) (rd : String) : String := resolveIn fs0.cwd rd

/-- The filesystem after the `rundir.mkdir(exist_ok=True)` of `run`. -/
def fsAfterMkdir (fs0 : FS) (rd : String) : FS :=
  if fs0.isDir (rundirOf fs0 rd) then fs0 else fs0.addDir (rundirOf fs0 rd)

/-- The model base name `run` works with (the final component of the
resolved model path). -/
def modelNameOf (fs0 : FS) (model : String) : String := basename (resolveIn fs0.cwd model)

/-- The resolved destination directory of a persistent-mode call. -/
def outdirOf (fs0 : FS) (rd : String) (outdir? : Option String) : String :=
  resolveIn fs0.cwd (outdir?.getD (rundirOf fs0 rd))

/-- The output base name of a call. -/
def outfileOf (fs0 : FS) (model : String) (outfile? : Option String) : String :=
  outfile?.getD (modelNameOf fs0 model)

/-- The body result of a persistent-mode call. -/
def bodyOf (sp : Synspec) (env : Env) (model rd : String)
    (outdir? outfile? : Option String) (fs0 : FS) :
    Option PyErr × Synspec × FS × List Ev :=
  runBody env (modelNameOf fs0 model) (resolveIn fs0.cwd model) (rundirOf fs0 rd)
    (outdirOf fs0 rd outdir?) (outfileOf fs0 model outfile?) sp (fsAfterMkdir fs0 rd)

/-- The filesystem a persistent-mode call presents to `_copy_to_rundir`
(after the run-directory `mkdir` and the pre-run cleanup). -/
def fs1Of (model rd : String) (outdir? outfile? : Option String) (fs0 : FS) : FS :=
  (removePotentialOutfiles (outdirOf fs0 rd outdir?) (outfileOf fs0 model outfile?)
    (fsAfterMkdir fs0 rd)).1

/-- The link table after the discovery merge of a persistent-mode call
whose `{model}.5` source template is `t`. -/
def mergedLinksOf (sp : Synspec) (env : Env) (model rd : String)
    (outdir? outfile? : Option String) (fs0 : FS) (t : String) :
    List (String × String) :=
  mergeReqs (fs1Of model rd outdir? outfile? fs0) sp.linkfiles
    (discoverReqs (env.readinput ((fs1Of model rd outdir? outfile? fs0).abs
      (pyFormat t (modelNameOf fs0 model) (resolveIn fs0.cwd model)))))

/-! ### Example instances used by concrete witnesses -/

/-- A `Synspec` instance with the constructor's default link table. -/
def exSp : Synspec :=
  ⟨51, "synspec",
    [("fort.19", "fort.19"), ("fort.55", "fort.55"),
     ("{model}.5", "{modelpath}.5"), ("{model}.7", "{modelpath}.7")]⟩

/-- A working directory `/t` holding the four required input files. -/
def exFS : FS :=
  ⟨"/t", ["/t/fort.19", "/t/fort.55", "/t/hhe35lt.5", "/t/hhe35lt.7"], ["/", "/t"]⟩

/-- The directory `/t` with stale artifacts of a previous `hhe35lt` run. -/
def exFSStale : FS :=
  { exFS with
    files := exFS.files ++
      ["/t/hhe35lt.spec", "/t/hhe35lt.iden", "/t/hhe35lt.eqws",
       "/t/hhe35lt.cont", "/t/hhe35lt.log"] }

/-- An environment whose solver succeeds and produces all four outputs. -/
def exEnvOk : Env :=
  ⟨fun _ => ⟨none, none⟩, fun _ => ⟨0⟩, [], "/tmp/x", 0,
    ["fort.7", "fort.12", "fort.16", "fort.17"]⟩

/-- An environment whose solver exits with status 1. -/
def exEnvFail : Env := { exEnvOk with solverExit := 1 }

/-- An environment in which another process holds the lock on `/t`. -/
def exEnvBusy : Env := { exEnvOk with heldLocks := ["/t"] }

/-- An environment whose `fort.55` decoder reports `ichemc = 1`. -/
def exEnvChem : Env := { exEnvOk with read55f := fun _ => ⟨1⟩ }

/-- An environment whose input decoder reports one standard file and two
ion files. -/
def exEnvDisc : Env :=
  { exEnvOk with readinput := fun _ => ⟨some "nst_l", some ["data/ion1", "data/ion2"]⟩ }

/-- The directory `/t` with the `fort.19` linelist missing. -/
def exFSNo19 : FS := ⟨"/t", ["/t/fort.55", "/t/hhe35lt.5", "/t/hhe35lt.7"], ["/", "/t"]⟩

/-- The directory `/t` with an auxiliary `fort.56` present. -/
def exFS56 : FS := { exFS with files := exFS.files ++ ["/t/fort.56"] }

/-! ### Path lemmas -/

/-- A well-formed path component: non-empty, not `"."`, slash-free. -/
def goodSeg (s : String) : Prop := s ≠ "" ∧ s ≠ "." ∧ '/' ∉ s.data

theorem mk_data_eq (s : String) : String.mk s.data = s := rfl

theorem data_mk (l : List Char) : (String.mk l).data = l := rfl

theorem filter_good_eq_self (l : List String) (hl : ∀ x ∈ l, goodSeg x) :
    List.filter (fun seg => seg ≠ "" && seg ≠ ".") l = l := by
  induction l with
  | nil => rfl
  | cons a t ih =>
    have hga := hl a (by simp)
    rw [List.filter_cons, if_pos (by simp [hga.1, hga.2.1]),
      ih (fun x hx => hl x (by simp [hx]))]

theorem splitSlashAux_no_slash (l : List Char) :
    ∀ cur, '/' ∉ cur → ∀ c ∈ splitSlashAux cur l, '/' ∉ c := by
  induction l with
  | nil =>
    intro cur hcur c hc
    simp only [splitSlashAux, List.mem_singleton] at hc
    subst hc; simpa using hcur
  | cons a rest ih =>
    intro cur hcur c hc
    by_cases ha : a = '/'
    · subst ha
      simp [splitSlashAux] at hc
      rcases hc with h | h
      · subst h; simpa using hcur
      · exact ih [] (by simp) c h
    · simp [splitSlashAux, ha] at hc
      exact ih (a :: cur) (by simp [hcur, Ne.symm ha]) c hc

theorem goodSeg_rawSegs (p : String) : ∀ s ∈ rawSegs p, goodSeg s := by
  intro s hs
  simp only [rawSegs, List.mem_filter, List.mem_map] at hs
  obtain ⟨⟨c, hc, hmk⟩, hf⟩ := hs
  have h1 : s ≠ "" ∧ s ≠ "." := by simpa using hf
  refine ⟨h1.1, h1.2, ?_⟩
  have := splitSlashAux_no_slash p.data [] (by simp) c hc
  subst hmk
  simpa using this

theorem splitSlashAux_append (l : List Char) :
    ∀ cur rest, '/' ∉ l →
      splitSlashAux cur (l ++ rest) = splitSlashAux (l.reverse ++ cur) rest := by
  induction l with
  | nil => intro cur rest _; simp
  | cons a t ih =>
    intro cur rest hl
    have ha : a ≠ '/' := by
      intro h; exact hl (by simp [h])
    have hstep : splitSlashAux cur ((a :: t) ++ rest) = splitSlashAux (a :: cur) (t ++ rest) := by
      simp [splitSlashAux, ha]
    rw [hstep, ih (a :: cur) rest (fun h => hl (List.mem_cons_of_mem _ h))]
    simp

theorem splitSlashAux_joinAbsAux (segs : List String)
    (h : ∀ s ∈ segs, '/' ∉ s.data) :
    ∀ cur, splitSlashAux cur (joinAbsAux segs) = cur.reverse :: segs.map String.data := by
  induction segs with
  | nil => intro cur; simp [joinAbsAux, splitSlashAux]
  | cons s rest ih =>
    intro cur
    simp only [joinAbsAux, splitSlashAux, if_pos rfl]
    rw [splitSlashAux_append s.data [] (joinAbsAux rest) (h s (by simp))]
    rw [ih (fun x hx => h x (by simp [hx])) (s.data.reverse ++ [])]
    simp

theorem rawSegs_joinAbs (segs : List String) (h : ∀ s ∈ segs, goodSeg s) :
    rawSegs (joinAbs segs) = segs := by
  cases segs with
  | nil => decide
  | cons s rest =>
    have hj : joinAbs (s :: rest) = String.mk (joinAbsAux (s :: rest)) := by
      simp [joinAbs]
    rw [hj]
    simp only [rawSegs, data_mk]
    rw [splitSlashAux_joinAbsAux (s :: rest) (fun x hx => (h x hx).2.2) []]
    simp only [List.reverse_nil, List.map_cons, List.map_map, Function.comp_def, mk_data_eq]
    rw [List.filter_cons, if_neg (by simp), List.map_id']
    exact filter_good_eq_self (s :: rest) h

theorem mem_normSegs_core (l : List String) :
    ∀ acc x, x ∈ l.foldl (fun acc seg => if seg = ".." then acc.dropLast else acc ++ [seg]) acc →
      x ∈ acc ∨ (x ∈ l ∧ x ≠ "..") := by
  induction l with
  | nil => intro acc x hx; exact Or.inl hx
  | cons s rest ih =>
    intro acc x hx
    simp only [List.foldl_cons] at hx
    rcases ih _ x hx with h | h
    · by_cases hs : s = ".."
      · rw [if_pos hs] at h
        exact Or.inl ((List.dropLast_sublist acc).subset h)
      · rw [if_neg hs] at h
        rcases List.mem_append.1 h with h' | h'
        · exact Or.inl h'
        · simp only [List.mem_singleton] at h'
          subst h'; exact Or.inr ⟨by simp, hs⟩
    · exact Or.inr ⟨by simp [h.1], h.2⟩

theorem mem_normSegs (l : List String) (x : String) (hx : x ∈ normSegs l) :
    x ∈ l ∧ x ≠ ".." := by
  rcases mem_normSegs_core l [] x hx with h | h
  · simp at h
  · exact h

theorem normSegs_eq_self_core (l : List String) :
    ∀ acc, ".." ∉ l →
      l.foldl (fun acc seg => if seg = ".." then acc.dropLast else acc ++ [seg]) acc = acc ++ l := by
  induction l with
  | nil => intro acc _; simp
  | cons s rest ih =>
    intro acc hl
    have hs : s ≠ ".." := fun h => hl (by simp [h])
    simp only [List.foldl_cons, if_neg hs]
    rw [ih _ (fun h => hl (by simp [h]))]
    simp

theorem normSegs_eq_self (l : List String) (h : ".." ∉ l) : normSegs l = l := by
  simpa using normSegs_eq_self_core l [] h

theorem isAbsolute_joinAbs (segs : List String) : isAbsolute (joinAbs segs) = true := by
  cases segs with
  | nil => decide
  | cons s rest => simp [joinAbs, joinAbsAux, isAbsolute]

/-- Every result of `resolveIn` is the join of well-formed,
parent-free components. -/
theorem resolveIn_eq_joinAbs (b p : String) :
    ∃ segs : List String, (∀ s ∈ segs, goodSeg s ∧ s ≠ "..") ∧
      resolveIn b p = joinAbs segs := by
  unfold resolveIn
  by_cases h : isAbsolute p = true
  · refine ⟨normSegs (rawSegs p), ?_, by simp [h]⟩
    intro s hs
    obtain ⟨h1, h2⟩ := mem_normSegs _ _ hs
    exact ⟨goodSeg_rawSegs p s h1, h2⟩
  · refine ⟨normSegs (rawSegs b ++ rawSegs p), ?_, by simp [h]⟩
    intro s hs
    obtain ⟨h1, h2⟩ := mem_normSegs _ _ hs
    rcases List.mem_append.1 h1 with h' | h'
    · exact ⟨goodSeg_rawSegs b s h', h2⟩
    · exact ⟨goodSeg_rawSegs p s h', h2⟩

theorem resolveIn_joinAbs (b : String) (segs : List String)
    (h : ∀ s ∈ segs, goodSeg s ∧ s ≠ "..") :
    resolveIn b (joinAbs segs) = joinAbs segs := by
  unfold resolveIn
  rw [if_pos (isAbsolute_joinAbs segs)]
  rw [rawSegs_joinAbs segs (fun s hs => (h s hs).1)]
  rw [normSegs_eq_self segs (fun hm => (h _ hm).2 rfl)]

/-- Resolution is idempotent: re-resolving an already resolved path (in
any base) leaves it unchanged. -/
theorem resolveIn_idem (c b p : String) :
    resolveIn c (resolveIn b p) = resolveIn b p := by
  obtain ⟨segs, hg, he⟩ := resolveIn_eq_joinAbs b p
  rw [he, resolveIn_joinAbs c segs hg]

theorem isAbsolute_resolveIn (b p : String) : isAbsolute (resolveIn b p) = true := by
  obtain ⟨segs, _, he⟩ := resolveIn_eq_joinAbs b p
  rw [he]; exact isAbsolute_joinAbs segs

/-! ### Link-table lemmas -/

theorem getA_setA_self (l : List (String × String)) (k v : String) :
    getA (setA l k v) k = some v := by
  induction l with
  | nil => simp [setA, getA]
  | cons p rest ih =>
    by_cases h : p.1 = k
    · simp [setA, h, getA]
    · simp only [setA]
      rw [if_neg h]
      simp only [getA]
      rw [if_neg h]
      exact ih

theorem getA_setA_ne (l : List (String × String)) (k v q : String) (h : q ≠ k) :
    getA (setA l k v) q = getA l q := by
  induction l with
  | nil => simp [setA, getA, Ne.symm h]
  | cons p rest ih =>
    by_cases hp : p.1 = k
    · have hk : ¬ k = q := fun hh => h hh.symm
      have hpq : ¬ p.1 = q := by rw [hp]; exact hk
      simp only [setA]
      rw [if_pos hp]
      simp only [getA]
      rw [if_neg hk, if_neg hpq]
    · simp only [setA]
      rw [if_neg hp]
      simp only [getA]
      by_cases hq : p.1 = q
      · rw [if_pos hq, if_pos hq]
      · rw [if_neg hq, if_neg hq]
        exact ih

/-! ### Filesystem lemmas -/

theorem FS.abs_resolved (fs : FS) (b p : String) :
    fs.abs (resolveIn b p) = resolveIn b p := resolveIn_idem fs.cwd b p

theorem FS.cwd_addFile (fs : FS) (p : String) : (fs.addFile p).cwd = fs.cwd := rfl

theorem FS.cwd_unlink (fs : FS) (p : String) : (fs.unlink p).cwd = fs.cwd := rfl

theorem FS.cwd_addDir (fs : FS) (p : String) : (fs.addDir p).cwd = fs.cwd := rfl

theorem FS.dirs_addFile (fs : FS) (p : String) : (fs.addFile p).dirs = fs.dirs := rfl

theorem FS.dirs_unlink (fs : FS) (p : String) : (fs.unlink p).dirs = fs.dirs := rfl

theorem FS.files_addDir (fs : FS) (p : String) : (fs.addDir p).files = fs.files := rfl

theorem FS.mem_files_addFile (fs : FS) (p q : String) :
    q ∈ (fs.addFile p).files ↔ q = fs.abs p ∨ q ∈ fs.files := by
  simp only [FS.addFile]
  by_cases h : fs.files.contains (fs.abs p)
  · rw [if_pos h]
    constructor
    · exact Or.inr
    · rintro (rfl | hq)
      · simpa using h
      · exact hq
  · rw [if_neg h]
    constructor
    · intro hq
      rcases List.mem_cons.mp hq with h1 | h1
      · exact Or.inl h1
      · exact Or.inr h1
    · intro hq
      rcases hq with h1 | h1
      · exact List.mem_cons.mpr (Or.inl h1)
      · exact List.mem_cons.mpr (Or.inr h1)

theorem FS.files_subset_addFile (fs : FS) (p : String) :
    fs.files ⊆ (fs.addFile p).files := by
  intro q hq
  exact (fs.mem_files_addFile p q).mpr (Or.inr hq)

theorem FS.files_unlink (fs : FS) (p : String) :
    (fs.unlink p).files = fs.files.erase (fs.abs p) := rfl

theorem FS.files_unlink_subset (fs : FS) (p : String) :
    (fs.unlink p).files ⊆ fs.files := by
  rw [FS.files_unlink]
  exact fun x hx => List.mem_of_mem_erase hx

theorem FS.nodup_addFile (fs : FS) (p : String) (h : fs.files.Nodup) :
    (fs.addFile p).files.Nodup := by
  simp only [FS.addFile]
  by_cases hc : fs.files.contains (fs.abs p)
  · rw [if_pos hc]; exact h
  · rw [if_neg hc]
    exact List.Nodup.cons (by simpa using hc) h

theorem FS.nodup_unlink (fs : FS) (p : String) (h : fs.files.Nodup) :
    (fs.unlink p).files.Nodup := by
  rw [FS.files_unlink]
  exact h.erase _

theorem FS.isFile_of_mem (fs : FS) (b p : String)
    (h : resolveIn b p ∈ fs.files) : fs.isFile (resolveIn b p) = true := by
  simp only [FS.isFile, FS.abs_resolved]
  simpa using h

/-! ### Cleanup-loop lemmas -/

theorem rpoLoop_cwd (outdir outfile : String) (exts : List String) :
    ∀ fs, (rpoLoop outdir outfile exts fs).1.cwd = fs.cwd := by
  induction exts with
  | nil => intro fs; rfl
  | cons e rest ih =>
    intro fs
    simp only [rpoLoop]
    split
    · exact ih (fs.unlink _)
    · exact ih fs

theorem rpoLoop_dirs (outdir outfile : String) (exts : List String) :
    ∀ fs, (rpoLoop outdir outfile exts fs).1.dirs = fs.dirs := by
  induction exts with
  | nil => intro fs; rfl
  | cons e rest ih =>
    intro fs
    simp only [rpoLoop]
    split
    · exact ih (fs.unlink _)
    · exact ih fs

theorem rpoLoop_files_subset (outdir outfile : String) (exts : List String) :
    ∀ fs, (rpoLoop outdir outfile exts fs).1.files ⊆ fs.files := by
  induction exts with
  | nil => intro fs q hq; exact hq
  | cons e rest ih =>
    intro fs
    simp only [rpoLoop]
    split
    · exact fun q hq => (fs.files_unlink_subset _) (ih (fs.unlink _) hq)
    · exact ih fs

theorem rpoLoop_nodup (outdir outfile : String) (exts : List String) :
    ∀ fs, fs.files.Nodup → (rpoLoop outdir outfile exts fs).1.files.Nodup := by
  induction exts with
  | nil => intro fs h; exact h
  | cons e rest ih =>
    intro fs h
    simp only [rpoLoop]
    split
    · exact ih (fs.unlink _) (fs.nodup_unlink _ h)
    · exact ih fs h

theorem rpoLoop_tr_deleted (outdir outfile : String) (exts : List String) :
    ∀ fs, ∀ ev ∈ (rpoLoop outdir outfile exts fs).2, ∃ p, ev = .deleted p := by
  induction exts with
  | nil => intro fs ev hev; simp [rpoLoop] at hev
  | cons e rest ih =>
    intro fs ev hev
    simp only [rpoLoop] at hev
    revert hev
    split
    · intro hev
      rcases List.mem_cons.mp hev with h1 | h1
      · exact ⟨_, h1⟩
      · exact ih (fs.unlink _) ev h1
    · intro hev
      exact ih fs ev hev

/-- The key cleanup property: once an extension of the list has been
processed, the corresponding artifact path is gone, and later steps
never re-create it. -/
theorem rpoLoop_not_mem (outdir outfile : String) (exts : List String) :
    ∀ fs, fs.files.Nodup → ∀ ext ∈ exts,
      resolveIn outdir (outfile ++ "." ++ ext) ∉ (rpoLoop outdir outfile exts fs).1.files := by
  induction exts with
  | nil => intro fs _ ext hext; simp at hext
  | cons e rest ih =>
    intro fs hnd ext hext
    rcases List.mem_cons.mp hext with h1 | h1
    · subst h1
      simp only [rpoLoop]
      split
      · intro hmem
        have := rpoLoop_files_subset outdir outfile rest _ hmem
        rw [FS.files_unlink] at this
        rw [show fs.abs (resolveIn outdir (outfile ++ "." ++ ext)) =
            resolveIn outdir (outfile ++ "." ++ ext) from fs.abs_resolved _ _] at this
        exact ((List.Nodup.mem_erase_iff hnd).mp this).1 rfl
      · next h =>
        intro hmem
        have := rpoLoop_files_subset outdir outfile rest fs hmem
        exact h (fs.isFile_of_mem _ _ this)
    · simp only [rpoLoop]
      split
      · exact ih (fs.unlink _) (fs.nodup_unlink _ hnd) ext h1
      · exact ih fs hnd ext h1

/-! ### Staging-loop lemmas -/

theorem stageLinks_cwd (model modelpath rundir : String) (links : List (String × String)) :
    ∀ fs, (stageLinks model modelpath rundir links fs).1.cwd = fs.cwd := by
  induction links with
  | nil => intro fs; rfl
  | cons p rest ih =>
    intro fs
    simp only [stageLinks]
    split
    · exact ih fs
    · exact ih (fs.addFile _)

theorem stageLinks_dirs (model modelpath rundir : String) (links : List (String × String)) :
    ∀ fs, (stageLinks model modelpath rundir links fs).1.dirs = fs.dirs := by
  induction links with
  | nil => intro fs; rfl
  | cons p rest ih =>
    intro fs
    simp only [stageLinks]
    split
    · exact ih fs
    · exact ih (fs.addFile _)

theorem stageLinks_files_mono (model modelpath rundir : String) (links : List (String × String)) :
    ∀ fs, fs.files ⊆ (stageLinks model modelpath rundir links fs).1.files := by
  induction links with
  | nil => intro fs q hq; exact hq
  | cons p rest ih =>
    intro fs
    simp only [stageLinks]
    split
    · exact ih fs
    · exact fun q hq => ih (fs.addFile _) (fs.files_subset_addFile _ hq)

theorem stageLinks_nodup (model modelpath rundir : String) (links : List (String × String)) :
    ∀ fs, fs.files.Nodup → (stageLinks model modelpath rundir links fs).1.files.Nodup := by
  induction links with
  | nil => intro fs h; exact h
  | cons p rest ih =>
    intro fs h
    simp only [stageLinks]
    split
    · exact ih fs h
    · exact ih (fs.addFile _) (fs.nodup_addFile _ h)

theorem stageLinks_frame (model modelpath rundir : String) (links : List (String × String)) :
    ∀ fs q, q ∈ (stageLinks model modelpath rundir links fs).1.files →
      q ∈ fs.files ∨ ∃ ev ∈ (stageLinks model modelpath rundir links fs).2,
        ev.createsP = some q := by
  induction links with
  | nil => intro fs q hq; exact Or.inl hq
  | cons p rest ih =>
    intro fs q hq
    simp only [stageLinks] at hq ⊢
    revert hq
    split
    · intro hq
      exact ih fs q hq
    · intro hq
      rcases ih (fs.addFile _) q hq with h1 | ⟨ev, hev, hc⟩
      · rcases (fs.mem_files_addFile _ q).mp h1 with h2 | h2
        · refine Or.inr ⟨_, List.mem_cons_self _ _, ?_⟩
          rw [h2, fs.abs_resolved]
          rfl
        · exact Or.inl h2
      · exact Or.inr ⟨ev, List.mem_cons_of_mem _ hev, hc⟩

theorem stageLinks_tr_symlinked (model modelpath rundir : String)
    (links : List (String × String)) :
    ∀ fs, ∀ ev ∈ (stageLinks model modelpath rundir links fs).2, ∃ s d, ev = .symlinked s d := by
  induction links with
  | nil => intro fs ev hev; simp [stageLinks] at hev
  | cons p rest ih =>
    intro fs ev hev
    simp only [stageLinks] at hev
    revert hev
    split
    · intro hev
      exact ih fs ev hev
    · intro hev
      rcases List.mem_cons.mp hev with h1 | h1
      · exact ⟨_, _, h1⟩
      · exact ih (fs.addFile _) ev h1

/-! ### Solver-phase lemmas -/

theorem solverDrop_cwd (rundir : String) (names : List String) :
    ∀ fs, (solverDrop rundir names fs).1.cwd = fs.cwd := by
  induction names with
  | nil => intro fs; rfl
  | cons n rest ih => intro fs; simpa [solverDrop] using ih (fs.addFile _)

theorem solverDrop_dirs (rundir : String) (names : List String) :
    ∀ fs, (solverDrop rundir names fs).1.dirs = fs.dirs := by
  induction names with
  | nil => intro fs; rfl
  | cons n rest ih => intro fs; simpa [solverDrop] using ih (fs.addFile _)

theorem solverDrop_files_mono (rundir : String) (names : List String) :
    ∀ fs, fs.files ⊆ (solverDrop rundir names fs).1.files := by
  induction names with
  | nil => intro fs q hq; exact hq
  | cons n rest ih =>
    intro fs q hq
    simpa [solverDrop] using ih (fs.addFile _) (fs.files_subset_addFile _ hq)

theorem solverDrop_nodup (rundir : String) (names : List String) :
    ∀ fs, fs.files.Nodup → (solverDrop rundir names fs).1.files.Nodup := by
  induction names with
  | nil => intro fs h; exact h
  | cons n rest ih =>
    intro fs h
    simpa [solverDrop] using ih (fs.addFile _) (fs.nodup_addFile _ h)

theorem solverDrop_frame (rundir : String) (names : List String) :
    ∀ fs q, q ∈ (solverDrop rundir names fs).1.files →
      q ∈ fs.files ∨ ∃ ev ∈ (solverDrop rundir names fs).2, ev.createsP = some q := by
  induction names with
  | nil => intro fs q hq; exact Or.inl hq
  | cons n rest ih =>
    intro fs q hq
    simp only [solverDrop] at hq ⊢
    rcases ih (fs.addFile _) q hq with h1 | ⟨ev, hev, hc⟩
    · rcases (fs.mem_files_addFile _ q).mp h1 with h2 | h2
      · refine Or.inr ⟨_, List.mem_cons_self _ _, ?_⟩
        rw [h2, fs.abs_resolved]
        rfl
      · exact Or.inl h2
    · exact Or.inr ⟨ev, List.mem_cons_of_mem _ hev, hc⟩

theorem solverDrop_tr_created (rundir : String) (names : List String) :
    ∀ fs, ∀ ev ∈ (solverDrop rundir names fs).2, ∃ p, ev = .created p := by
  induction names with
  | nil => intro fs ev hev; simp [solverDrop] at hev
  | cons n rest ih =>
    intro fs ev hev
    simp only [solverDrop] at hev
    rcases List.mem_cons.mp hev with h1 | h1
    · exact ⟨_, h1⟩
    · exact ih (fs.addFile _) ev h1

theorem runSolver_cwd (env : Env) (synspecpath model rundir : String) (fs : FS) :
    (runSolver env synspecpath model rundir fs).2.1.cwd = fs.cwd := by
  simp only [runSolver]
  split
  · split <;> simp [solverDrop_cwd, FS.cwd_addFile]
  · rfl

theorem runSolver_dirs (env : Env) (synspecpath model rundir : String) (fs : FS) :
    (runSolver env synspecpath model rundir fs).2.1.dirs = fs.dirs := by
  simp only [runSolver]
  split
  · split <;> simp [solverDrop_dirs, FS.dirs_addFile]
  · rfl

theorem runSolver_nodup (env : Env) (synspecpath model rundir : String) (fs : FS)
    (h : fs.files.Nodup) :
    (runSolver env synspecpath model rundir fs).2.1.files.Nodup := by
  simp only [runSolver]
  split
  · split <;>
      exact solverDrop_nodup _ _ _ ((FS.addFile _ _).nodup_addFile _ (fs.nodup_addFile _ h))
  · exact fs.nodup_addFile _ h

theorem runSolver_frame (env : Env) (synspecpath model rundir : String) (fs : FS) :
    ∀ q, q ∈ (runSolver env synspecpath model rundir fs).2.1.files →
      q ∈ fs.files ∨ ∃ ev ∈ (runSolver env synspecpath model rundir fs).2.2,
        ev.createsP = some q := by
  intro q
  simp only [runSolver, List.cons_append, List.nil_append, List.append_assoc]
  split
  · have hstep : ∀ (hq : q ∈ (solverDrop rundir env.solverCreates
        ((fs.addFile (resolveIn rundir "fort.8")).addFile (resolveIn rundir "fort.log"))).1.files),
        q ∈ fs.files ∨
          ∃ ev ∈ Ev.symlinked (model ++ ".7") (resolveIn rundir "fort.8") ::
              Ev.created (resolveIn rundir "fort.log") ::
              Ev.proc [synspecpath] (resolveIn rundir (model ++ ".5"))
                (resolveIn rundir "fort.log") none rundir true ::
              (solverDrop rundir env.solverCreates
                ((fs.addFile (resolveIn rundir "fort.8")).addFile (resolveIn rundir "fort.log"))).2,
            ev.createsP = some q := by
      intro hq
      rcases solverDrop_frame rundir env.solverCreates _ q hq with h1 | ⟨ev, hev, hc⟩
      · rcases ((fs.addFile (resolveIn rundir "fort.8")).mem_files_addFile
            (resolveIn rundir "fort.log") q).mp h1 with h2 | h2
        · refine Or.inr ⟨Ev.created (resolveIn rundir "fort.log"), by simp, ?_⟩
          rw [h2]
          simp [Ev.createsP, FS.abs, FS.addFile, resolveIn_idem]
        · rcases (fs.mem_files_addFile (resolveIn rundir "fort.8") q).mp h2 with h3 | h3
          · refine Or.inr ⟨Ev.symlinked (model ++ ".7") (resolveIn rundir "fort.8"), by simp, ?_⟩
            rw [h3]
            simp [Ev.createsP, FS.abs, resolveIn_idem]
          · exact Or.inl h3
      · exact Or.inr ⟨ev, by simp [hev], hc⟩
    split <;> exact hstep
  · intro hq
    rcases (fs.mem_files_addFile (resolveIn rundir "fort.8") q).mp hq with h2 | h2
    · refine Or.inr ⟨Ev.symlinked (model ++ ".7") (resolveIn rundir "fort.8"), by simp, ?_⟩
      rw [h2]
      simp [Ev.createsP, FS.abs, resolveIn_idem]
    · exact Or.inl h2

theorem runSolver_tr_shape (env : Env) (synspecpath model rundir : String) (fs : FS) :
    ∀ ev ∈ (runSolver env synspecpath model rundir fs).2.2,
      (∃ s d, ev = .symlinked s d) ∨ (∃ p, ev = .created p) ∨
      ev = .proc [synspecpath] (resolveIn rundir (model ++ ".5"))
        (resolveIn rundir "fort.log") none rundir true := by
  intro ev
  simp only [runSolver, List.cons_append, List.nil_append, List.append_assoc]
  have hdrop : ∀ fs2 : FS, ev ∈ (solverDrop rundir env.solverCreates fs2).2 →
      (∃ p, ev = Ev.created p) := fun fs2 h => solverDrop_tr_created _ _ fs2 ev h
  split
  · have hstep : ∀ (hev : ev ∈ Ev.symlinked (model ++ ".7") (resolveIn rundir "fort.8") ::
        Ev.created (resolveIn rundir "fort.log") ::
        Ev.proc [synspecpath] (resolveIn rundir (model ++ ".5"))
          (resolveIn rundir "fort.log") none rundir true ::
        (solverDrop rundir env.solverCreates
          ((fs.addFile (resolveIn rundir "fort.8")).addFile (resolveIn rundir "fort.log"))).2),
        (∃ s d, ev = .symlinked s d) ∨ (∃ p, ev = .created p) ∨
        ev = .proc [synspecpath] (resolveIn rundir (model ++ ".5"))
          (resolveIn rundir "fort.log") none rundir true := by
      intro hev
      rcases List.mem_cons.mp hev with h1 | h1
      · exact Or.inl ⟨_, _, h1⟩
      rcases List.mem_cons.mp h1 with h2 | h2
      · exact Or.inr (Or.inl ⟨_, h2⟩)
      rcases List.mem_cons.mp h2 with h3 | h3
      · exact Or.inr (Or.inr h3)
      · exact Or.inr (Or.inl (hdrop _ h3))
    split <;> exact hstep
  · intro hev
    have h1 : ev = Ev.symlinked (model ++ ".7") (resolveIn rundir "fort.8") := by
      simpa using hev
    exact Or.inl ⟨_, _, h1⟩

/-! ### Copy / extraction lemmas -/

theorem copyPairs_cwd (pairs : List (String × String)) :
    ∀ fs, (copyPairs pairs fs).2.1.cwd = fs.cwd := by
  induction pairs with
  | nil => intro fs; rfl
  | cons p rest ih =>
    intro fs
    simp only [copyPairs]
    split
    · simpa using ih (fs.addFile _)
    · rfl

theorem copyPairs_dirs (pairs : List (String × String)) :
    ∀ fs, (copyPairs pairs fs).2.1.dirs = fs.dirs := by
  induction pairs with
  | nil => intro fs; rfl
  | cons p rest ih =>
    intro fs
    simp only [copyPairs]
    split
    · simpa using ih (fs.addFile _)
    · rfl

theorem copyPairs_nodup (pairs : List (String × String)) :
    ∀ fs, fs.files.Nodup → (copyPairs pairs fs).2.1.files.Nodup := by
  induction pairs with
  | nil => intro fs h; exact h
  | cons p rest ih =>
    intro fs h
    simp only [copyPairs]
    split
    · simpa using ih (fs.addFile _) (fs.nodup_addFile _ h)
    · exact h

theorem copyPairs_tr_copied (pairs : List (String × String)) :
    ∀ fs, ∀ ev ∈ (copyPairs pairs fs).2.2, ∃ s d, ev = .copied s d := by
  induction pairs with
  | nil => intro fs ev hev; simp [copyPairs] at hev
  | cons p rest ih =>
    intro fs ev hev
    simp only [copyPairs] at hev
    revert hev
    split
    · intro hev
      rcases List.mem_cons.mp (by simpa using hev) with h1 | h1
      · exact ⟨_, _, h1⟩
      · exact ih (fs.addFile _) ev h1
    · intro hev
      simp at hev

theorem copyPairs_ok_tr (pairs : List (String × String)) :
    ∀ fs, (copyPairs pairs fs).1 = none →
      (copyPairs pairs fs).2.2 = pairs.map fun p => Ev.copied p.1 p.2 := by
  induction pairs with
  | nil => intro fs _; rfl
  | cons p rest ih =>
    intro fs hok
    simp only [copyPairs] at hok ⊢
    revert hok
    split
    · intro hok
      have := ih (fs.addFile _) (by simpa using hok)
      simp [this]
    · intro hok
      simp at hok

theorem copyPairs_err_shape (pairs : List (String × String)) :
    ∀ fs, (copyPairs pairs fs).1 = none ∨ ∃ s, (copyPairs pairs fs).1 = some (.fileNotFound s) := by
  induction pairs with
  | nil => intro fs; exact Or.inl rfl
  | cons p rest ih =>
    intro fs
    simp only [copyPairs]
    split
    · simpa using ih (fs.addFile _)
    · exact Or.inr ⟨p.1, rfl⟩

theorem extractOutfiles_cwd (rundir outdir outfile : String) (fs : FS) :
    (extractOutfiles rundir outdir outfile fs).2.1.cwd = fs.cwd := by
  simp only [extractOutfiles]
  split
  · exact copyPairs_cwd _ fs
  split
  · rfl
  · exact copyPairs_cwd _ (fs.addDir outdir)

theorem extractOutfiles_nodup (rundir outdir outfile : String) (fs : FS)
    (h : fs.files.Nodup) :
    (extractOutfiles rundir outdir outfile fs).2.1.files.Nodup := by
  simp only [extractOutfiles]
  split
  · exact copyPairs_nodup _ fs h
  split
  · exact h
  · exact copyPairs_nodup _ (fs.addDir outdir) (by simpa using h)

theorem extractOutfiles_tr_copied (rundir outdir outfile : String) (fs : FS) :
    ∀ ev ∈ (extractOutfiles rundir outdir outfile fs).2.2, ∃ s d, ev = .copied s d := by
  intro ev
  simp only [extractOutfiles]
  split
  · exact copyPairs_tr_copied _ fs ev
  split
  · intro h; simp at h
  · exact copyPairs_tr_copied _ (fs.addDir outdir) ev

theorem extractOutfiles_err_shape (rundir outdir outfile : String) (fs : FS) :
    (extractOutfiles rundir outdir outfile fs).1 = none ∨
    (∃ s, (extractOutfiles rundir outdir outfile fs).1 = some (.fileNotFound s)) ∨
    (∃ s, (extractOutfiles rundir outdir outfile fs).1 = some (.fileExists s)) := by
  simp only [extractOutfiles]
  split
  · rcases copyPairs_err_shape _ fs with h | h
    · exact Or.inl h
    · exact Or.inr (Or.inl h)
  split
  · exact Or.inr (Or.inr ⟨_, rfl⟩)
  · rcases copyPairs_err_shape _ (fs.addDir outdir) with h | h
    · exact Or.inl h
    · exact Or.inr (Or.inl h)

theorem extractOutfiles_ok_tr (rundir outdir outfile : String) (fs : FS)
    (h : (extractOutfiles rundir outdir outfile fs).1 = none) :
    (extractOutfiles rundir outdir outfile fs).2.2 =
      (extractPairs rundir outdir outfile).map fun p => Ev.copied p.1 p.2 := by
  revert h
  simp only [extractOutfiles]
  split
  · exact copyPairs_ok_tr _ fs
  split
  · intro h; simp at h
  · exact copyPairs_ok_tr _ (fs.addDir outdir)

theorem extractOutfiles_ok_dir (rundir outdir outfile : String) (fs : FS)
    (h : (extractOutfiles rundir outdir outfile fs).1 = none) :
    fs.abs outdir ∈ (extractOutfiles rundir outdir outfile fs).2.1.dirs := by
  revert h
  simp only [extractOutfiles]
  split
  · next hd =>
    intro _
    rw [copyPairs_dirs]
    simpa [FS.isDir] using hd
  split
  · intro h; simp at h
  · intro _
    rw [copyPairs_dirs]
    simp only [FS.addDir]
    split
    · next hc => simpa using hc
    · exact List.mem_cons_self _ _

/-! ### Error-shape lemmas for the earlier phases -/

theorem detectFort56_err_shape (env : Env) (model : String) (fs : FS)
    (links : List (String × String)) :
    (detectFort56 env model fs links).1 = none ∨
    (∃ s, (detectFort56 env model fs links).1 = some (.keyError s)) ∨
    (∃ s, (detectFort56 env model fs links).1 = some (.fileNotFound s)) := by
  simp only [detectFort56]
  split
  · exact Or.inl rfl
  split
  · exact Or.inr (Or.inl ⟨_, rfl⟩)
  split
  · split
    · split
      · exact Or.inl rfl
      · exact Or.inr (Or.inr ⟨_, rfl⟩)
    · exact Or.inl rfl
  · exact Or.inr (Or.inr ⟨_, rfl⟩)

theorem copyToRundir_err_shape (env : Env) (model modelpath rundir : String)
    (sp : Synspec) (fs : FS) :
    (copyToRundir env model modelpath rundir sp fs).1 = none ∨
    (∃ s, (copyToRundir env model modelpath rundir sp fs).1 = some (.keyError s)) ∨
    (∃ s, (copyToRundir env model modelpath rundir sp fs).1 = some (.fileNotFound s)) := by
  simp only [copyToRundir]
  split
  · exact Or.inr (Or.inl ⟨_, rfl⟩)
  split
  · split
    · next heq =>
      rcases detectFort56_err_shape env model fs
          (mergeReqs fs sp.linkfiles (discoverReqs _)) with h | h | h
      · rw [heq] at h; simp at h
      · obtain ⟨s, hs⟩ := h
        rw [heq] at hs
        exact Or.inr (Or.inl ⟨s, by simpa using hs⟩)
      · obtain ⟨s, hs⟩ := h
        rw [heq] at hs
        exact Or.inr (Or.inr ⟨s, by simpa using hs⟩)
    · exact Or.inl rfl
  · exact Or.inr (Or.inr ⟨_, rfl⟩)

theorem checkFiles_err_shape (model rundir : String) (fs : FS) :
    checkFiles model rundir fs = none ∨
    ∃ s, checkFiles model rundir fs = some (.fileNotFound s) := by
  simp only [checkFiles]
  split
  · exact Or.inr ⟨_, rfl⟩
  · exact Or.inl rfl

theorem runSolver_err_shape (env : Env) (synspecpath model rundir : String) (fs : FS) :
    (runSolver env synspecpath model rundir fs).1 = none ∨
    (∃ s, (runSolver env synspecpath model rundir fs).1 = some (.fileNotFound s)) ∨
    (runSolver env synspecpath model rundir fs).1 =
      some (.calledProcessError env.solverExit) := by
  simp only [runSolver]
  split
  · split
    · exact Or.inl rfl
    · exact Or.inr (Or.inr rfl)
  · exact Or.inr (Or.inl ⟨_, rfl⟩)

/-! ### Cleanup-phase wrappers -/

theorem removePotentialOutfiles_cwd (outdir outfile : String) (fs : FS) :
    (removePotentialOutfiles outdir outfile fs).1.cwd = fs.cwd := by
  simp only [removePotentialOutfiles]
  split
  · exact rpoLoop_cwd _ _ _ fs
  · rfl

theorem removePotentialOutfiles_dirs (outdir outfile : String) (fs : FS) :
    (removePotentialOutfiles outdir outfile fs).1.dirs = fs.dirs := by
  simp only [removePotentialOutfiles]
  split
  · exact rpoLoop_dirs _ _ _ fs
  · rfl

theorem removePotentialOutfiles_files_subset (outdir outfile : String) (fs : FS) :
    (removePotentialOutfiles outdir outfile fs).1.files ⊆ fs.files := by
  simp only [removePotentialOutfiles]
  split
  · exact rpoLoop_files_subset _ _ _ fs
  · exact fun q hq => hq

theorem removePotentialOutfiles_nodup (outdir outfile : String) (fs : FS)
    (h : fs.files.Nodup) :
    (removePotentialOutfiles outdir outfile fs).1.files.Nodup := by
  simp only [removePotentialOutfiles]
  split
  · exact rpoLoop_nodup _ _ _ fs h
  · exact h

theorem removePotentialOutfiles_tr_deleted (outdir outfile : String) (fs : FS) :
    ∀ ev ∈ (removePotentialOutfiles outdir outfile fs).2, ∃ p, ev = .deleted p := by
  simp only [removePotentialOutfiles]
  split
  · exact rpoLoop_tr_deleted _ _ _ fs
  · intro ev h; simp at h

/-- After the cleanup phase, none of the four data artifacts of the
requested output name exists, provided the destination directory
existed. -/
theorem removePotentialOutfiles_not_mem (outdir outfile : String) (fs : FS)
    (hnd : fs.files.Nodup) (hdir : fs.isDir outdir = true) (ext : String)
    (hext : ext ∈ ["spec", "iden", "eqws", "cont"]) :
    resolveIn outdir (outfile ++ "." ++ ext) ∉
      (removePotentialOutfiles outdir outfile fs).1.files := by
  simp only [removePotentialOutfiles, hdir, if_true]
  exact rpoLoop_not_mem outdir outfile _ fs hnd ext hext

/-! ### Solver-phase success and failure lemmas -/

theorem runSolver_ok (env : Env) (synspecpath model rundir : String) (fs : FS)
    (h : (runSolver env synspecpath model rundir fs).1 = none) :
    env.solverExit = 0 ∧
    Ev.proc [synspecpath] (resolveIn rundir (model ++ ".5"))
        (resolveIn rundir "fort.log") none rundir true ∈
      (runSolver env synspecpath model rundir fs).2.2 := by
  revert h
  simp only [runSolver, List.cons_append, List.nil_append, List.append_assoc]
  split
  · split
    · next hz => exact fun _ => ⟨hz, by simp⟩
    · intro h; simp at h
  · intro h; simp at h

theorem runSolver_fail (env : Env) (synspecpath model rundir : String) (fs : FS) (k : Nat)
    (h : (runSolver env synspecpath model rundir fs).1 = some (.calledProcessError k)) :
    k = env.solverExit ∧ env.solverExit ≠ 0 ∧
    Ev.proc [synspecpath] (resolveIn rundir (model ++ ".5"))
        (resolveIn rundir "fort.log") none rundir true ∈
      (runSolver env synspecpath model rundir fs).2.2 := by
  revert h
  simp only [runSolver, List.cons_append, List.nil_append, List.append_assoc]
  split
  · split
    · intro h; simp at h
    · next hz =>
      intro h
      simp only [Option.some.injEq, PyErr.calledProcessError.injEq] at h
      exact ⟨h.symm, hz, by simp⟩
  · intro h; simp at h

theorem runSolver_tr_head (env : Env) (synspecpath model rundir : String) (fs : FS) :
    ∃ rest, (runSolver env synspecpath model rundir fs).2.2 =
      Ev.symlinked (model ++ ".7") (resolveIn rundir "fort.8") :: rest := by
  simp only [runSolver, List.cons_append, List.nil_append, List.append_assoc]
  split
  · split <;> exact ⟨_, rfl⟩
  · exact ⟨[], rfl⟩

/-! ### `_copy_to_rundir` composition lemmas -/

theorem copyToRundir_cwd (env : Env) (model modelpath rundir : String)
    (sp : Synspec) (fs : FS) :
    (copyToRundir env model modelpath rundir sp fs).2.2.1.cwd = fs.cwd := by
  simp only [copyToRundir]
  split
  · rfl
  split
  · split
    · rfl
    · exact stageLinks_cwd _ _ _ _ fs
  · rfl

theorem copyToRundir_dirs (env : Env) (model modelpath rundir : String)
    (sp : Synspec) (fs : FS) :
    (copyToRundir env model modelpath rundir sp fs).2.2.1.dirs = fs.dirs := by
  simp only [copyToRundir]
  split
  · rfl
  split
  · split
    · rfl
    · exact stageLinks_dirs _ _ _ _ fs
  · rfl

theorem copyToRundir_nodup (env : Env) (model modelpath rundir : String)
    (sp : Synspec) (fs : FS) (h : fs.files.Nodup) :
    (copyToRundir env model modelpath rundir sp fs).2.2.1.files.Nodup := by
  simp only [copyToRundir]
  split
  · exact h
  split
  · split
    · exact h
    · exact stageLinks_nodup _ _ _ _ fs h
  · exact h

theorem copyToRundir_frame (env : Env) (model modelpath rundir : String)
    (sp : Synspec) (fs : FS) :
    ∀ q, q ∈ (copyToRundir env model modelpath rundir sp fs).2.2.1.files →
      q ∈ fs.files ∨ ∃ ev ∈ (copyToRundir env model modelpath rundir sp fs).2.2.2,
        ev.createsP = some q := by
  intro q
  simp only [copyToRundir]
  split
  · exact Or.inl
  split
  · split
    · exact Or.inl
    · exact stageLinks_frame _ _ _ _ fs q
  · exact Or.inl

theorem copyToRundir_tr_symlinked (env : Env) (model modelpath rundir : String)
    (sp : Synspec) (fs : FS) :
    ∀ ev ∈ (copyToRundir env model modelpath rundir sp fs).2.2.2,
      ∃ s d, ev = .symlinked s d := by
  intro ev
  simp only [copyToRundir]
  split
  · intro h; simp at h
  split
  · split
    · intro h; simp at h
    · exact stageLinks_tr_symlinked _ _ _ _ fs ev
  · intro h; simp at h

/-! ### `runBody` composition lemmas -/

theorem runBody_sp (env : Env) (model modelpath rundir outdir outfile : String)
    (sp : Synspec) (fs : FS) :
    (runBody env model modelpath rundir outdir outfile sp fs).2.1 =
      (copyToRundir env model modelpath rundir sp
        (removePotentialOutfiles outdir outfile fs).1).2.1 := by
  simp only [runBody]
  split
  · next e sp' fs' tr heq => rw [heq]
  · next sp' fs' tr heq =>
    rw [heq]
    split
    · rfl
    · split <;> rfl

theorem runBody_fail_frame (env : Env) (model modelpath rundir outdir outfile : String)
    (sp : Synspec) (fs : FS) (k : Nat)
    (herr : (runBody env model modelpath rundir outdir outfile sp fs).1 =
      some (.calledProcessError k)) :
    ∀ q, q ∈ (runBody env model modelpath rundir outdir outfile sp fs).2.2.1.files →
      q ∈ (removePotentialOutfiles outdir outfile fs).1.files ∨
      ∃ ev ∈ (runBody env model modelpath rundir outdir outfile sp fs).2.2.2,
        ev.createsP = some q := by
  intro q
  revert herr
  simp only [runBody]
  split
  · next e sp' fs' tr heq =>
    intro _ hq
    have hfs : (copyToRundir env model modelpath rundir sp
        (removePotentialOutfiles outdir outfile fs).1).2.2.1 = fs' := by rw [heq]
    have htr : (copyToRundir env model modelpath rundir sp
        (removePotentialOutfiles outdir outfile fs).1).2.2.2 = tr := by rw [heq]
    rcases copyToRundir_frame env model modelpath rundir sp _ q
        (by rw [hfs]; exact hq) with h1 | ⟨ev, hev, hc⟩
    · exact Or.inl h1
    · exact Or.inr ⟨ev, List.mem_append.mpr (Or.inr (htr ▸ hev)), hc⟩
  · next sp' fs' tr heq =>
    have hfs : (copyToRundir env model modelpath rundir sp
        (removePotentialOutfiles outdir outfile fs).1).2.2.1 = fs' := by rw [heq]
    have htr : (copyToRundir env model modelpath rundir sp
        (removePotentialOutfiles outdir outfile fs).1).2.2.2 = tr := by rw [heq]
    split
    · intro _ hq
      rcases copyToRundir_frame env model modelpath rundir sp _ q
          (by rw [hfs]; exact hq) with h1 | ⟨ev, hev, hc⟩
      · exact Or.inl h1
      · exact Or.inr ⟨ev, List.mem_append.mpr (Or.inr (htr ▸ hev)), hc⟩
    · split
      · next e fs2 tr2 heq2 =>
        intro _ hq
        have hfs2 : (runSolver env sp'.synspec model rundir fs').2.1 = fs2 := by rw [heq2]
        have htr2 : (runSolver env sp'.synspec model rundir fs').2.2 = tr2 := by rw [heq2]
        rcases runSolver_frame env sp'.synspec model rundir fs' q
            (by rw [hfs2]; exact hq) with h1 | ⟨ev, hev, hc⟩
        · rcases copyToRundir_frame env model modelpath rundir sp _ q
              (by rw [hfs]; exact h1) with h2 | ⟨ev, hev, hc⟩
          · exact Or.inl h2
          · exact Or.inr ⟨ev,
              List.mem_append.mpr (Or.inl (List.mem_append.mpr (Or.inr (htr ▸ hev)))), hc⟩
        · exact Or.inr ⟨ev, List.mem_append.mpr (Or.inr (htr2 ▸ hev)), hc⟩
      · next fs2 tr2 heq2 =>
        intro herr
        rcases extractOutfiles_err_shape rundir outdir outfile fs2 with h | ⟨s, hs⟩ | ⟨s, hs⟩
        · rw [h] at herr; simp at herr
        · rw [hs] at herr; simp at herr
        · rw [hs] at herr; simp at herr

theorem runBody_tr_no_lock (env : Env) (model modelpath rundir outdir outfile : String)
    (sp : Synspec) (fs : FS) :
    ∀ ev ∈ (runBody env model modelpath rundir outdir outfile sp fs).2.2.2,
      ev.isLock = false := by
  have hdel : ∀ ev ∈ (removePotentialOutfiles outdir outfile fs).2, ev.isLock = false := by
    intro ev hev
    obtain ⟨p, hp⟩ := removePotentialOutfiles_tr_deleted outdir outfile fs ev hev
    rw [hp]; rfl
  intro ev
  simp only [runBody]
  split
  · next e sp' fs' tr heq =>
    have htr : (copyToRundir env model modelpath rundir sp
        (removePotentialOutfiles outdir outfile fs).1).2.2.2 = tr := by rw [heq]
    intro hev
    rcases List.mem_append.mp hev with h1 | h1
    · exact hdel ev h1
    · obtain ⟨s, d, hsd⟩ := copyToRundir_tr_symlinked env model modelpath rundir sp _ ev
        (htr ▸ h1)
      rw [hsd]; rfl
  · next sp' fs' tr heq =>
    have htr : (copyToRundir env model modelpath rundir sp
        (removePotentialOutfiles outdir outfile fs).1).2.2.2 = tr := by rw [heq]
    have hcp : ∀ ev ∈ tr, Ev.isLock ev = false := by
      intro ev hev
      obtain ⟨s, d, hsd⟩ := copyToRundir_tr_symlinked env model modelpath rundir sp _ ev
        (htr ▸ hev)
      rw [hsd]; rfl
    have hsol : ∀ trx, (runSolver env sp'.synspec model rundir fs').2.2 = trx →
        ∀ ev ∈ trx, Ev.isLock ev = false := by
      intro trx htrx ev hev
      rcases runSolver_tr_shape env sp'.synspec model rundir fs' ev (htrx ▸ hev)
        with ⟨s, d, h1⟩ | ⟨p, h1⟩ | h1 <;> rw [h1] <;> rfl
    split
    · intro hev
      rcases List.mem_append.mp hev with h1 | h1
      · exact hdel ev h1
      · exact hcp ev h1
    · split
      · next e fs2 tr2 heq2 =>
        intro hev
        rcases List.mem_append.mp hev with h1 | h1
        · rcases List.mem_append.mp h1 with h2 | h2
          · exact hdel ev h2
          · exact hcp ev h2
        · exact hsol tr2 (by rw [heq2]) ev h1
      · next fs2 tr2 heq2 =>
        intro hev
        rcases List.mem_append.mp hev with h1 | h1
        · rcases List.mem_append.mp h1 with h2 | h2
          · rcases List.mem_append.mp h2 with h3 | h3
            · exact hdel ev h3
            · exact hcp ev h3
          · exact hsol tr2 (by rw [heq2]) ev h2
        · obtain ⟨s, d, hsd⟩ := extractOutfiles_tr_copied rundir outdir outfile fs2 ev h1
          rw [hsd]; rfl

theorem copyToRundir_sp_fields (env : Env) (model modelpath rundir : String)
    (sp : Synspec) (fs : FS) :
    (copyToRundir env model modelpath rundir sp fs).2.1.synspec = sp.synspec ∧
    (copyToRundir env model modelpath rundir sp fs).2.1.version = sp.version := by
  simp only [copyToRundir]
  split
  · exact ⟨rfl, rfl⟩
  split
  · split
    · exact ⟨rfl, rfl⟩
    · exact ⟨rfl, rfl⟩
  · exact ⟨rfl, rfl⟩

theorem runBody_eq_of_copy_fail (env : Env) (model modelpath rundir outdir outfile : String)
    (sp sp' : Synspec) (fs fs' : FS) (trc : List Ev) (e : PyErr)
    (hcopy : copyToRundir env model modelpath rundir sp
      (removePotentialOutfiles outdir outfile fs).1 = (some e, sp', fs', trc)) :
    runBody env model modelpath rundir outdir outfile sp fs =
      (some e, sp', fs', (removePotentialOutfiles outdir outfile fs).2 ++ trc) := by
  simp only [runBody, hcopy]

theorem runBody_eq_of_check_fail (env : Env) (model modelpath rundir outdir outfile : String)
    (sp sp' : Synspec) (fs fs' : FS) (trc : List Ev) (e : PyErr)
    (hcopy : copyToRundir env model modelpath rundir sp
      (removePotentialOutfiles outdir outfile fs).1 = (none, sp', fs', trc))
    (hcheck : checkFiles model rundir fs' = some e) :
    runBody env model modelpath rundir outdir outfile sp fs =
      (some e, sp', fs', (removePotentialOutfiles outdir outfile fs).2 ++ trc) := by
  simp only [runBody, hcopy, hcheck]

theorem runBody_eq_of_solver (env : Env) (model modelpath rundir outdir outfile : String)
    (sp sp' : Synspec) (fs fs' fs2 : FS) (trc tr2 : List Ev) (e : PyErr)
    (hcopy : copyToRundir env model modelpath rundir sp
      (removePotentialOutfiles outdir outfile fs).1 = (none, sp', fs', trc))
    (hcheck : checkFiles model rundir fs' = none)
    (hsolver : runSolver env sp'.synspec model rundir fs' = (some e, fs2, tr2)) :
    runBody env model modelpath rundir outdir outfile sp fs =
      (some e, sp', fs2, (removePotentialOutfiles outdir outfile fs).2 ++ trc ++ tr2) := by
  simp only [runBody, hcopy, hcheck, hsolver]

theorem runBody_eq_of_extract (env : Env) (model modelpath rundir outdir outfile : String)
    (sp sp' : Synspec) (fs fs' fs2 : FS) (trc tr2 : List Ev)
    (hcopy : copyToRundir env model modelpath rundir sp
      (removePotentialOutfiles outdir outfile fs).1 = (none, sp', fs', trc))
    (hcheck : checkFiles model rundir fs' = none)
    (hsolver : runSolver env sp'.synspec model rundir fs' = (none, fs2, tr2)) :
    runBody env model modelpath rundir outdir outfile sp fs =
      ((extractOutfiles rundir outdir outfile fs2).1, sp',
        (extractOutfiles rundir outdir outfile fs2).2.1,
        (removePotentialOutfiles outdir outfile fs).2 ++ trc ++ tr2 ++
          (extractOutfiles rundir outdir outfile fs2).2.2) := by
  simp only [runBody, hcopy, hcheck, hsolver]

theorem filter_isCopied_nil (l : List Ev) (h : ∀ ev ∈ l, ev.isCopied = false) :
    l.filter Ev.isCopied = [] := by
  induction l with
  | nil => rfl
  | cons a t ih =>
    rw [List.filter_cons, if_neg (by simp [h a (by simp)]), ih fun ev hev => h ev (by simp [hev])]

theorem runBody_ok (env : Env) (model modelpath rundir outdir outfile : String)
    (sp : Synspec) (fs : FS)
    (h : (runBody env model modelpath rundir outdir outfile sp fs).1 = none) :
    (runBody env model modelpath rundir outdir outfile sp fs).2.2.2.filter Ev.isCopied =
      (extractPairs rundir outdir outfile).map (fun p => Ev.copied p.1 p.2) ∧
    resolveIn fs.cwd outdir ∈
      (runBody env model modelpath rundir outdir outfile sp fs).2.2.1.dirs ∧
    env.solverExit = 0 ∧
    Ev.proc [sp.synspec] (resolveIn rundir (model ++ ".5"))
        (resolveIn rundir "fort.log") none rundir true ∈
      (runBody env model modelpath rundir outdir outfile sp fs).2.2.2 := by
  revert h
  simp only [runBody]
  split
  · next e sp' fs' trc heq => intro h; simp at h
  · next sp' fs' trc heq =>
    have htrc : (copyToRundir env model modelpath rundir sp
        (removePotentialOutfiles outdir outfile fs).1).2.2.2 = trc := by rw [heq]
    have hfs' : (copyToRundir env model modelpath rundir sp
        (removePotentialOutfiles outdir outfile fs).1).2.2.1 = fs' := by rw [heq]
    have hsp' : (copyToRundir env model modelpath rundir sp
        (removePotentialOutfiles outdir outfile fs).1).2.1 = sp' := by rw [heq]
    have hnoc1 : ∀ ev ∈ (removePotentialOutfiles outdir outfile fs).2, ev.isCopied = false := by
      intro ev hev
      obtain ⟨p, hp⟩ := removePotentialOutfiles_tr_deleted outdir outfile fs ev hev
      rw [hp]; rfl
    have hnoc2 : ∀ ev ∈ trc, ev.isCopied = false := by
      intro ev hev
      obtain ⟨s, d, hp⟩ := copyToRundir_tr_symlinked env model modelpath rundir sp _ ev
        (htrc ▸ hev)
      rw [hp]; rfl
    split
    · intro h; simp at h
    · split
      · next e fs2 tr2 heq2 => intro h; simp at h
      · next fs2 tr2 heq2 =>
        intro hex
        have htr2 : (runSolver env sp'.synspec model rundir fs').2.2 = tr2 := by rw [heq2]
        have hfs2 : (runSolver env sp'.synspec model rundir fs').2.1 = fs2 := by rw [heq2]
        have hsolok : (runSolver env sp'.synspec model rundir fs').1 = none := by rw [heq2]
        have hnoc3 : ∀ ev ∈ tr2, ev.isCopied = false := by
          intro ev hev
          rcases runSolver_tr_shape env sp'.synspec model rundir fs' ev (htr2 ▸ hev)
            with ⟨s, d, h1⟩ | ⟨p, h1⟩ | h1 <;> rw [h1] <;> rfl
        have hcwd2 : fs2.cwd = fs.cwd := by
          rw [← hfs2, runSolver_cwd, ← hfs', copyToRundir_cwd,
            removePotentialOutfiles_cwd]
        refine ⟨?_, ?_, ?_, ?_⟩
        · rw [List.filter_append, List.filter_append, List.filter_append,
            filter_isCopied_nil _ hnoc1, filter_isCopied_nil _ hnoc2,
            filter_isCopied_nil _ hnoc3]
          simp only [List.nil_append]
          rw [extractOutfiles_ok_tr rundir outdir outfile fs2 hex]
          have : ∀ l : List (String × String),
              (l.map fun p => Ev.copied p.1 p.2).filter Ev.isCopied =
                l.map fun p => Ev.copied p.1 p.2 := by
            intro l
            induction l with
            | nil => rfl
            | cons a t iht => simp [List.filter_cons, Ev.isCopied, iht]
          exact this _
        · have := extractOutfiles_ok_dir rundir outdir outfile fs2 hex
          rw [FS.abs, hcwd2] at this
          exact this
        · exact (runSolver_ok env sp'.synspec model rundir fs' hsolok).1
        · have hsyn : sp'.synspec = sp.synspec := by
            rw [← hsp']
            exact (copyToRundir_sp_fields env model modelpath rundir sp _).1
          have := (runSolver_ok env sp'.synspec model rundir fs' hsolok).2
          rw [htr2, hsyn] at this
          exact List.mem_append.mpr (Or.inl (List.mem_append.mpr (Or.inr this)))

theorem runBody_copied_imp (env : Env) (model modelpath rundir outdir outfile : String)
    (sp : Synspec) (fs : FS) (s d : String)
    (h : Ev.copied s d ∈ (runBody env model modelpath rundir outdir outfile sp fs).2.2.2) :
    env.solverExit = 0 ∧
    Ev.proc [sp.synspec] (resolveIn rundir (model ++ ".5"))
        (resolveIn rundir "fort.log") none rundir true ∈
      (runBody env model modelpath rundir outdir outfile sp fs).2.2.2 := by
  revert h
  simp only [runBody]
  have hdel : ∀ ev ∈ (removePotentialOutfiles outdir outfile fs).2,
      Ev.copied s d = ev → False := by
    intro ev hev hc
    obtain ⟨p, hp⟩ := removePotentialOutfiles_tr_deleted outdir outfile fs ev hev
    rw [hp] at hc
    exact Ev.noConfusion hc
  split
  · next e sp' fs' trc heq =>
    have htrc : (copyToRundir env model modelpath rundir sp
        (removePotentialOutfiles outdir outfile fs).1).2.2.2 = trc := by rw [heq]
    intro h
    rcases List.mem_append.mp h with h1 | h1
    · exact absurd rfl (fun hh => hdel _ h1 hh)
    · obtain ⟨s2, d2, hp⟩ := copyToRundir_tr_symlinked env model modelpath rundir sp _ _
        (htrc ▸ h1)
      exact Ev.noConfusion hp
  · next sp' fs' trc heq =>
    have htrc : (copyToRundir env model modelpath rundir sp
        (removePotentialOutfiles outdir outfile fs).1).2.2.2 = trc := by rw [heq]
    have hsp' : (copyToRundir env model modelpath rundir sp
        (removePotentialOutfiles outdir outfile fs).1).2.1 = sp' := by rw [heq]
    have hcp : ∀ ev ∈ trc, Ev.copied s d = ev → False := by
      intro ev hev hc
      obtain ⟨s2, d2, hp⟩ := copyToRundir_tr_symlinked env model modelpath rundir sp _ ev
        (htrc ▸ hev)
      rw [hp] at hc
      exact Ev.noConfusion hc
    have hsolshape : ∀ trx, (runSolver env sp'.synspec model rundir fs').2.2 = trx →
        ∀ ev ∈ trx, Ev.copied s d = ev → False := by
      intro trx htrx ev hev hc
      rcases runSolver_tr_shape env sp'.synspec model rundir fs' ev (htrx ▸ hev)
        with ⟨s2, d2, h1⟩ | ⟨p, h1⟩ | h1 <;> rw [h1] at hc <;> exact Ev.noConfusion hc
    split
    · intro h
      rcases List.mem_append.mp h with h1 | h1
      · exact absurd rfl (fun hh => hdel _ h1 hh)
      · exact absurd rfl (fun hh => hcp _ h1 hh)
    · split
      · next e fs2 tr2 heq2 =>
        intro h
        rcases List.mem_append.mp h with h1 | h1
        · rcases List.mem_append.mp h1 with h2 | h2
          · exact absurd rfl (fun hh => hdel _ h2 hh)
          · exact absurd rfl (fun hh => hcp _ h2 hh)
        · exact absurd rfl (fun hh => hsolshape tr2 (by rw [heq2]) _ h1 hh)
      · next fs2 tr2 heq2 =>
        intro _
        have hsolok : (runSolver env sp'.synspec model rundir fs').1 = none := by rw [heq2]
        have hsyn : sp'.synspec = sp.synspec := by
          rw [← hsp']
          exact (copyToRundir_sp_fields env model modelpath rundir sp _).1
        have hp := (runSolver_ok env sp'.synspec model rundir fs' hsolok).2
        rw [show (runSolver env sp'.synspec model rundir fs').2.2 = tr2 from by rw [heq2],
          hsyn] at hp
        exact ⟨(runSolver_ok env sp'.synspec model rundir fs' hsolok).1,
          List.mem_append.mpr (Or.inl (List.mem_append.mpr (Or.inr hp)))⟩

theorem runSolver_zero_no_cpe (env : Env) (synspecpath model rundir : String) (fs : FS)
    (hz : env.solverExit = 0) (k : Nat) :
    (runSolver env synspecpath model rundir fs).1 ≠ some (.calledProcessError k) := by
  simp only [runSolver, hz]
  split <;> simp

theorem runBody_calledProcess_exit (env : Env)
    (model modelpath rundir outdir outfile : String) (sp : Synspec) (fs : FS) (k : Nat)
    (herr : (runBody env model modelpath rundir outdir outfile sp fs).1 =
      some (.calledProcessError k)) :
    env.solverExit ≠ 0 ∧ k = env.solverExit := by
  revert herr
  simp only [runBody]
  split
  · next e sp' fs' trc heq =>
    intro herr
    simp only [Option.some.injEq] at herr
    have he : (copyToRundir env model modelpath rundir sp
        (removePotentialOutfiles outdir outfile fs).1).1 = some e := by rw [heq]
    rcases copyToRundir_err_shape env model modelpath rundir sp _ with h | ⟨s, hs⟩ | ⟨s, hs⟩
    · rw [he] at h; simp at h
    · rw [he] at hs
      simp only [Option.some.injEq] at hs
      rw [hs] at herr
      exact PyErr.noConfusion herr
    · rw [he] at hs
      simp only [Option.some.injEq] at hs
      rw [hs] at herr
      exact PyErr.noConfusion herr
  · next sp' fs' trc heq =>
    split
    · next e hcheck =>
      intro herr
      simp only [Option.some.injEq] at herr
      rcases checkFiles_err_shape model rundir fs' with h | ⟨s, hs⟩
      · rw [hcheck] at h; simp at h
      · rw [hcheck] at hs
        simp only [Option.some.injEq] at hs
        rw [hs] at herr
        exact PyErr.noConfusion herr
    · split
      · next e fs2 tr2 heq2 =>
        intro herr
        simp only [Option.some.injEq] at herr
        have he : (runSolver env sp'.synspec model rundir fs').1 = some e := by rw [heq2]
        rcases runSolver_err_shape env sp'.synspec model rundir fs' with h | ⟨s, hs⟩ | h
        · rw [he] at h; simp at h
        · rw [he] at hs
          simp only [Option.some.injEq] at hs
          rw [hs] at herr
          exact PyErr.noConfusion herr
        · rw [he] at h
          simp only [Option.some.injEq] at h
          rw [h] at herr
          have hk : env.solverExit = k := by
            have := (PyErr.calledProcessError.injEq env.solverExit k).mp herr
            exact this
          refine ⟨?_, hk.symm⟩
          intro hz
          rw [h] at he
          exact runSolver_zero_no_cpe env sp'.synspec model rundir fs' hz env.solverExit he
      · next fs2 tr2 heq2 =>
        intro herr
        rcases extractOutfiles_err_shape rundir outdir outfile fs2 with h | ⟨s, hs⟩ | ⟨s, hs⟩
        · rw [h] at herr; simp at herr
        · rw [hs] at herr
          simp only [Option.some.injEq] at herr
          exact PyErr.noConfusion herr
        · rw [hs] at herr
          simp only [Option.some.injEq] at herr
          exact PyErr.noConfusion herr

theorem isCopied_eq_true (ev : Ev) (h : ev.isCopied = true) : ∃ s d, ev = .copied s d := by
  cases ev <;> simp [Ev.isCopied] at h ⊢

theorem runBody_fail_no_copied (env : Env)
    (model modelpath rundir outdir outfile : String) (sp : Synspec) (fs : FS) (k : Nat)
    (herr : (runBody env model modelpath rundir outdir outfile sp fs).1 =
      some (.calledProcessError k)) :
    (runBody env model modelpath rundir outdir outfile sp fs).2.2.2.filter Ev.isCopied = [] := by
  have hexit := (runBody_calledProcess_exit env model modelpath rundir outdir outfile
    sp fs k herr).1
  apply filter_isCopied_nil
  intro ev hev
  by_contra hc
  have hc' : ev.isCopied = true := by
    cases h : ev.isCopied
    · exact absurd h hc
    · rfl
  obtain ⟨s, d, hsd⟩ := isCopied_eq_true ev hc'
  subst hsd
  exact hexit (runBody_copied_imp env model modelpath rundir outdir outfile sp fs s d hev).1

theorem runBody_proc_canonical (env : Env)
    (model modelpath rundir outdir outfile : String) (sp : Synspec) (fs : FS) :
    ∀ args i o e c ch, Ev.proc args i o e c ch ∈
        (runBody env model modelpath rundir outdir outfile sp fs).2.2.2 →
      args = [sp.synspec] ∧ i = resolveIn rundir (model ++ ".5") ∧
      o = resolveIn rundir "fort.log" ∧ e = none ∧ c = rundir ∧ ch = true := by
  intro args i o e c ch
  simp only [runBody]
  have hdel : ∀ ev ∈ (removePotentialOutfiles outdir outfile fs).2,
      Ev.proc args i o e c ch = ev → False := by
    intro ev hev hc
    obtain ⟨p, hp⟩ := removePotentialOutfiles_tr_deleted outdir outfile fs ev hev
    rw [hp] at hc
    exact Ev.noConfusion hc
  split
  · next e2 sp' fs' trc heq =>
    have htrc : (copyToRundir env model modelpath rundir sp
        (removePotentialOutfiles outdir outfile fs).1).2.2.2 = trc := by rw [heq]
    intro h
    rcases List.mem_append.mp h with h1 | h1
    · exact absurd rfl (fun hh => hdel _ h1 hh)
    · obtain ⟨s2, d2, hp⟩ := copyToRundir_tr_symlinked env model modelpath rundir sp _ _
        (htrc ▸ h1)
      exact Ev.noConfusion hp
  · next sp' fs' trc heq =>
    have htrc : (copyToRundir env model modelpath rundir sp
        (removePotentialOutfiles outdir outfile fs).1).2.2.2 = trc := by rw [heq]
    have hsp' : (copyToRundir env model modelpath rundir sp
        (removePotentialOutfiles outdir outfile fs).1).2.1 = sp' := by rw [heq]
    have hsyn : sp'.synspec = sp.synspec := by
      rw [← hsp']
      exact (copyToRundir_sp_fields env model modelpath rundir sp _).1
    have hcp : ∀ ev ∈ trc, Ev.proc args i o e c ch = ev → False := by
      intro ev hev hc
      obtain ⟨s2, d2, hp⟩ := copyToRundir_tr_symlinked env model modelpath rundir sp _ ev
        (htrc ▸ hev)
      rw [hp] at hc
      exact Ev.noConfusion hc
    have hsolcase : ∀ trx, (runSolver env sp'.synspec model rundir fs').2.2 = trx →
        Ev.proc args i o e c ch ∈ trx →
        args = [sp.synspec] ∧ i = resolveIn rundir (model ++ ".5") ∧
        o = resolveIn rundir "fort.log" ∧ e = none ∧ c = rundir ∧ ch = true := by
      intro trx htrx hmem
      rcases runSolver_tr_shape env sp'.synspec model rundir fs' _ (htrx ▸ hmem)
        with ⟨s2, d2, h1⟩ | ⟨p2, h1⟩ | h1
      · exact Ev.noConfusion h1
      · exact Ev.noConfusion h1
      · have := Ev.proc.injEq args i o e c ch [sp'.synspec]
          (resolveIn rundir (model ++ ".5")) (resolveIn rundir "fort.log") none rundir true
        rw [this] at h1
        exact ⟨by rw [h1.1, hsyn], h1.2.1, h1.2.2.1, h1.2.2.2.1, h1.2.2.2.2.1, h1.2.2.2.2.2⟩
    split
    · intro h
      rcases List.mem_append.mp h with h1 | h1
      · exact absurd rfl (fun hh => hdel _ h1 hh)
      · exact absurd rfl (fun hh => hcp _ h1 hh)
    · split
      · next e2 fs2 tr2 heq2 =>
        intro h
        rcases List.mem_append.mp h with h1 | h1
        · rcases List.mem_append.mp h1 with h2 | h2
          · exact absurd rfl (fun hh => hdel _ h2 hh)
          · exact absurd rfl (fun hh => hcp _ h2 hh)
        · exact hsolcase tr2 (by rw [heq2]) h1
      · next fs2 tr2 heq2 =>
        intro h
        rcases List.mem_append.mp h with h1 | h1
        · rcases List.mem_append.mp h1 with h2 | h2
          · rcases List.mem_append.mp h2 with h3 | h3
            · exact absurd rfl (fun hh => hdel _ h3 hh)
            · exact absurd rfl (fun hh => hcp _ h3 hh)
          · exact hsolcase tr2 (by rw [heq2]) h2
        · obtain ⟨s2, d2, hp⟩ := extractOutfiles_tr_copied rundir outdir outfile fs2 _ h1
          exact Ev.noConfusion hp

/-! ### `run` unfolding equations -/

theorem run_persistent_eq (sp : Synspec) (env : Env) (model rd : String)
    (outdir? outfile? : Option String) (fs0 : FS)
    (hnf : fs0.isFile (rundirOf fs0 rd) = false)
    (hnl : env.heldLocks.contains (rundirOf fs0 rd) = false) :
    Synspec.run sp env model (some rd) outdir? outfile? fs0 =
      { err := (bodyOf sp env model rd outdir? outfile? fs0).1
        sp := (bodyOf sp env model rd outdir? outfile? fs0).2.1
        fs := (bodyOf sp env model rd outdir? outfile? fs0).2.2.1
        tr := Ev.lockAcq (rundirOf fs0 rd) "synspec.lock" ::
          (bodyOf sp env model rd outdir? outfile? fs0).2.2.2 ++
          [Ev.lockRel (rundirOf fs0 rd)] } := by
  rw [rundirOf] at hnf hnl
  simp only [Synspec.run, hnf, hnl, Bool.false_eq_true, if_false,
    bodyOf, rundirOf, fsAfterMkdir, modelNameOf, outdirOf, outfileOf]

theorem run_busy_eq (sp : Synspec) (env : Env) (model rd : String)
    (outdir? outfile? : Option String) (fs0 : FS)
    (hnf : fs0.isFile (rundirOf fs0 rd) = false)
    (hl : env.heldLocks.contains (rundirOf fs0 rd) = true) :
    Synspec.run sp env model (some rd) outdir? outfile? fs0 =
      { err := some .busy, sp := sp, fs := fsAfterMkdir fs0 rd, tr := [] } := by
  rw [rundirOf] at hnf hl
  simp only [Synspec.run, hnf, hl, Bool.false_eq_true, if_false, if_true,
    fsAfterMkdir, rundirOf]

theorem run_temp_eq (sp : Synspec) (env : Env) (model : String)
    (outdir? outfile? : Option String) (fs0 : FS) :
    Synspec.run sp env model none outdir? outfile? fs0 =
      { err := (runBody env (modelNameOf fs0 model) (resolveIn fs0.cwd model)
            (resolveIn fs0.cwd env.tmpdir) (resolveIn fs0.cwd (outdir?.getD fs0.cwd))
            (outfileOf fs0 model outfile?) sp (fs0.addDir (resolveIn fs0.cwd env.tmpdir))).1
        sp := (runBody env (modelNameOf fs0 model) (resolveIn fs0.cwd model)
            (resolveIn fs0.cwd env.tmpdir) (resolveIn fs0.cwd (outdir?.getD fs0.cwd))
            (outfileOf fs0 model outfile?) sp (fs0.addDir (resolveIn fs0.cwd env.tmpdir))).2.1
        fs := ((runBody env (modelNameOf fs0 model) (resolveIn fs0.cwd model)
            (resolveIn fs0.cwd env.tmpdir) (resolveIn fs0.cwd (outdir?.getD fs0.cwd))
            (outfileOf fs0 model outfile?) sp
            (fs0.addDir (resolveIn fs0.cwd env.tmpdir))).2.2.1).removeTree
            (resolveIn fs0.cwd env.tmpdir)
        tr := (runBody env (modelNameOf fs0 model) (resolveIn fs0.cwd model)
            (resolveIn fs0.cwd env.tmpdir) (resolveIn fs0.cwd (outdir?.getD fs0.cwd))
            (outfileOf fs0 model outfile?) sp
            (fs0.addDir (resolveIn fs0.cwd env.tmpdir))).2.2.2 } := by
  simp only [Synspec.run, modelNameOf, outfileOf]

/-! ### Discovery lemmas -/

theorem mem_dedupFirstAux (l : List String) :
    ∀ seen x, x ∈ dedupFirstAux seen l ↔ x ∈ l ∧ x ∉ seen := by
  induction l with
  | nil => intro seen x; simp [dedupFirstAux]
  | cons a rest ih =>
    intro seen x
    simp only [dedupFirstAux]
    by_cases ha : seen.contains a
    · rw [if_pos ha, ih seen x]
      constructor
      · rintro ⟨h1, h2⟩
        exact ⟨List.mem_cons_of_mem _ h1, h2⟩
      · rintro ⟨h1, h2⟩
        rcases List.mem_cons.mp h1 with h3 | h3
        · subst h3
          exact absurd (by simpa using ha) h2
        · exact ⟨h3, h2⟩
    · rw [if_neg ha]
      constructor
      · intro h
        rcases List.mem_cons.mp h with h1 | h1
        · subst h1
          exact ⟨List.mem_cons_self _ _, by simpa using ha⟩
        · obtain ⟨h2, h3⟩ := (ih (a :: seen) x).mp h1
          exact ⟨List.mem_cons_of_mem _ h2, fun hx => h3 (List.mem_cons_of_mem _ hx)⟩
      · rintro ⟨h1, h2⟩
        rcases List.mem_cons.mp h1 with h3 | h3
        · subst h3
          exact List.mem_cons_self _ _
        · by_cases hxa : x = a
          · subst hxa
            exact List.mem_cons_self _ _
          · exact List.mem_cons_of_mem _ ((ih (a :: seen) x).mpr
              ⟨h3, fun hx => (List.mem_cons.mp hx).elim hxa h2⟩)

theorem mem_dedupFirst (l : List String) (x : String) : x ∈ dedupFirst l ↔ x ∈ l := by
  rw [dedupFirst, mem_dedupFirstAux]
  simp

theorem mem_discoverReqs (d : InputDescr) (r : String) :
    r ∈ discoverReqs d ↔
      ∃ x ∈ collectRefs d, isAbsolute x = false ∧ r = pyFirstSeg x := by
  rw [discoverReqs, mem_dedupFirst, List.mem_filterMap]
  constructor
  · rintro ⟨x, hx, hr⟩
    by_cases ha : isAbsolute x
    · rw [if_pos ha] at hr; exact absurd hr (by simp)
    · rw [if_neg ha] at hr
      exact ⟨x, hx, by simpa using ha, by simpa using hr.symm⟩
  · rintro ⟨x, hx, ha, hr⟩
    exact ⟨x, hx, by rw [if_neg (by simp [ha]), hr]⟩

theorem getA_mergeReqs (fs : FS) (reqs : List String) :
    ∀ links k, getA (mergeReqs fs links reqs) k =
      if k ∈ reqs ∧ fs.pathExists k = true ∧ getA links k = none then some k
      else getA links k := by
  induction reqs with
  | nil =>
    intro links k
    rw [if_neg (by simp)]
    rfl
  | cons r rest ih =>
    intro links k
    simp only [mergeReqs]
    by_cases hb : (fs.pathExists r && (getA links r).isNone) = true
    · rw [if_pos hb, ih (setA links r r) k]
      obtain ⟨hex, hn⟩ := (Bool.and_eq_true _ _).mp hb
      by_cases hk : k = r
      · subst hk
        rw [getA_setA_self]
        rw [if_neg (by simp), if_pos
          ⟨List.mem_cons_self _ _, hex, Option.isNone_iff_eq_none.mp hn⟩]
      · rw [getA_setA_ne links r r k hk]
        by_cases hc : k ∈ rest ∧ fs.pathExists k = true ∧ getA links k = none
        · rw [if_pos hc, if_pos ⟨List.mem_cons_of_mem _ hc.1, hc.2⟩]
        · rw [if_neg hc, if_neg (fun hc2 =>
            hc ⟨(List.mem_cons.mp hc2.1).resolve_left hk, hc2.2⟩)]
    · rw [if_neg hb, ih links k]
      by_cases hk : k = r
      · subst hk
        have hnc : ¬ (fs.pathExists k = true ∧ getA links k = none) := by
          intro ⟨h1, h2⟩
          exact hb (by simp [h1, h2])
        rw [if_neg (fun hc => hnc hc.2), if_neg (fun hc => hnc hc.2)]
      · by_cases hc : k ∈ rest ∧ fs.pathExists k = true ∧ getA links k = none
        · rw [if_pos hc, if_pos ⟨List.mem_cons_of_mem _ hc.1, hc.2⟩]
        · rw [if_neg hc, if_neg (fun hc2 =>
            hc ⟨(List.mem_cons.mp hc2.1).resolve_left hk, hc2.2⟩)]

/-! ### Claim C9 -/

/-- C9: a freshly constructed instance's link table contains exactly
`fort.19 ↦ fort.19`, `fort.55 ↦ fort.55`, `{model}.5 ↦ {modelpath}.5`
and `{model}.7 ↦ {modelpath}.7`; and after every
`add_link(src, dst?)` the table maps `dst?` (defaulting to `src`) to
`src`, overwriting any previous entry under that destination key and
leaving every other destination key unchanged. -/
theorem C9_defaults_and_addOverride :
    (∀ (p : String) (sp : Synspec), Synspec.mk51 p 51 = Except.ok sp →
      sp.linkfiles = [("fort.19", "fort.19"), ("fort.55", "fort.55"),
        ("{model}.5", "{modelpath}.5"), ("{model}.7", "{modelpath}.7")]) ∧
    (∀ (t : Synspec) (src : String) (dst? : Option String),
      getA (t.add_link src dst?).linkfiles (dst?.getD src) = some src ∧
      ∀ k, k ≠ dst?.getD src →
        getA (t.add_link src dst?).linkfiles k = getA t.linkfiles k) := by
  constructor
  · intro p sp h
    simp only [Synspec.mk51] at h
    rw [if_neg (by simp)] at h
    cases h
    rfl
  · intro t src dst?
    constructor
    · simp only [Synspec.add_link]
      exact getA_setA_self _ _ _
    · intro k hk
      simp only [Synspec.add_link]
      exact getA_setA_ne _ _ _ _ hk

theorem C9_defaults_and_addOverride_witness :
    ({ version := 51, synspec := "synspec",
       linkfiles := [("fort.19", "fort.19"), ("fort.55", "fort.55"),
         ("{model}.5", "{modelpath}.5"), ("{model}.7", "{modelpath}.7")] } : Synspec).linkfiles
      = [("fort.19", "fort.19"), ("fort.55", "fort.55"),
         ("{model}.5", "{modelpath}.5"), ("{model}.7", "{modelpath}.7")] ∧
    getA (Synspec.add_link ⟨51, "synspec", [("fort.19", "fort.19")]⟩
      "linelist" (some "fort.19")).linkfiles "fort.19" = some "linelist" ∧
    getA (Synspec.add_link ⟨51, "synspec", [("fort.19", "fort.19")]⟩
      "linelist" (some "fort.19")).linkfiles "fort.55" = getA [("fort.19", "fort.19")] "fort.55" :=
  ⟨C9_defaults_and_addOverride.1 "synspec" _ (by rfl),
   (C9_defaults_and_addOverride.2 ⟨51, "synspec", [("fort.19", "fort.19")]⟩
     "linelist" (some "fort.19")).1,
   (C9_defaults_and_addOverride.2 ⟨51, "synspec", [("fort.19", "fort.19")]⟩
     "linelist" (some "fort.19")).2 "fort.55" (by decide)⟩

/-! ### Claim C4 -/

/-- C4: dependency discovery collects the truthy standard-file reference
and every ion file reference, discards absolute references, reduces each
relative reference to its first path component, deduplicates, and the
merge adds a self-mapped entry for a candidate exactly when it exists on
disk relative to the working directory and is not already a destination
key; every other key of the table is untouched. -/
theorem C4_discovery_and_merge :
    ∀ (d : InputDescr) (fs : FS) (links : List (String × String)),
      (∀ r, r ∈ discoverReqs d ↔
        ∃ x ∈ collectRefs d, isAbsolute x = false ∧ r = pyFirstSeg x) ∧
      (∀ k, getA (mergeReqs fs links (discoverReqs d)) k =
        if k ∈ discoverReqs d ∧ fs.pathExists k = true ∧ getA links k = none
        then some k else getA links k) := by
  intro d fs links
  exact ⟨fun r => mem_discoverReqs d r, fun k => getA_mergeReqs fs (discoverReqs d) links k⟩

/-! ### Staging characterization -/

theorem stageLinks_tr_filterMap (model modelpath rundir : String) :
    ∀ (links : List (String × String)) (fs : FS),
      (stageLinks model modelpath rundir links fs).2 =
        links.filterMap (fun p =>
          if rundir = resolveIn fs.cwd "." ∧
              resolveIn fs.cwd (pyFormat p.2 model modelpath) =
                resolveIn fs.cwd (pyFormat p.1 model modelpath)
          then none
          else some (Ev.symlinked (resolveIn fs.cwd (pyFormat p.2 model modelpath))
            (resolveIn rundir (pyFormat p.1 model modelpath)))) := by
  intro links
  induction links with
  | nil => intro fs; rfl
  | cons p rest ih =>
    intro fs
    simp only [stageLinks, List.filterMap_cons]
    split
    · next hbool =>
      have hc : rundir = resolveIn fs.cwd "." ∧
          resolveIn fs.cwd (pyFormat p.2 model modelpath) =
            resolveIn fs.cwd (pyFormat p.1 model modelpath) := by
        simpa using hbool
      rw [if_pos hc]
      exact ih fs
    · next hbool =>
      have hc : ¬ (rundir = resolveIn fs.cwd "." ∧
          resolveIn fs.cwd (pyFormat p.2 model modelpath) =
            resolveIn fs.cwd (pyFormat p.1 model modelpath)) := by
        simpa using hbool
      rw [if_neg hc]
      have := ih (fs.addFile (resolveIn rundir (pyFormat p.1 model modelpath)))
      rw [show (fs.addFile (resolveIn rundir (pyFormat p.1 model modelpath))).cwd = fs.cwd
        from rfl] at this
      rw [this]

theorem stageLinks_mem_of_not_skip (model modelpath rundir : String) :
    ∀ (links : List (String × String)) (fs : FS) (p : String × String), p ∈ links →
      ¬ (rundir = resolveIn fs.cwd "." ∧
          resolveIn fs.cwd (pyFormat p.2 model modelpath) =
            resolveIn fs.cwd (pyFormat p.1 model modelpath)) →
      resolveIn rundir (pyFormat p.1 model modelpath) ∈
        (stageLinks model modelpath rundir links fs).1.files := by
  intro links
  induction links with
  | nil => intro fs p hp; simp at hp
  | cons q rest ih =>
    intro fs p hp hskip
    rcases List.mem_cons.mp hp with h1 | h1
    · subst h1
      simp only [stageLinks]
      split
      · next hbool => exact absurd (by simpa using hbool) hskip
      · refine stageLinks_files_mono _ _ _ _ _ ?_
        exact (fs.mem_files_addFile _ _).mpr (Or.inl (fs.abs_resolved _ _).symm)
    · simp only [stageLinks]
      split
      · exact ih fs p h1 hskip
      · refine ih (fs.addFile _) p h1 ?_
        simpa [FS.cwd_addFile] using hskip

/-! ### Claim C8 -/

/-- C8: during staging, an entry's symbolic link is skipped exactly when
the run directory equals the (resolved) current working directory and
the formatted source and destination resolve to the same absolute path;
in every other case a symbolic link is force-created at
`rundir / destination` — the emitted link events are precisely the
filter-map of the table under this condition, and every non-skipped
destination exists in the staged filesystem. -/
theorem C8_stage_skip_iff :
    ∀ (model modelpath rundir : String) (links : List (String × String)) (fs : FS),
      ((stageLinks model modelpath rundir links fs).2 =
        links.filterMap (fun p =>
          if rundir = resolveIn fs.cwd "." ∧
              resolveIn fs.cwd (pyFormat p.2 model modelpath) =
                resolveIn fs.cwd (pyFormat p.1 model modelpath)
          then none
          else some (Ev.symlinked (resolveIn fs.cwd (pyFormat p.2 model modelpath))
            (resolveIn rundir (pyFormat p.1 model modelpath))))) ∧
      ∀ p ∈ links,
        ¬ (rundir = resolveIn fs.cwd "." ∧
            resolveIn fs.cwd (pyFormat p.2 model modelpath) =
              resolveIn fs.cwd (pyFormat p.1 model modelpath)) →
          resolveIn rundir (pyFormat p.1 model modelpath) ∈
            (stageLinks model modelpath rundir links fs).1.files := by
  intro model modelpath rundir links fs
  exact ⟨stageLinks_tr_filterMap model modelpath rundir links fs,
    fun p hp hskip => stageLinks_mem_of_not_skip model modelpath rundir links fs p hp hskip⟩

theorem C8_stage_skip_iff_witness :
    (stageLinks "hhe35lt" "/t/hhe35lt" "/t/run"
        [("fort.19", "fort.19")] ⟨"/t", ["/t/fort.19"], ["/", "/t"]⟩).2 =
      [Ev.symlinked "/t/fort.19" "/t/run/fort.19"] ∧
    "/t/run/fort.19" ∈ (stageLinks "hhe35lt" "/t/hhe35lt" "/t/run"
        [("fort.19", "fort.19")] ⟨"/t", ["/t/fort.19"], ["/", "/t"]⟩).1.files := by
  constructor
  · rw [(C8_stage_skip_iff "hhe35lt" "/t/hhe35lt" "/t/run"
      [("fort.19", "fort.19")] ⟨"/t", ["/t/fort.19"], ["/", "/t"]⟩).1]
    decide
  · have := (C8_stage_skip_iff "hhe35lt" "/t/hhe35lt" "/t/run"
      [("fort.19", "fort.19")] ⟨"/t", ["/t/fort.19"], ["/", "/t"]⟩).2
      ("fort.19", "fort.19") (by decide) (by decide)
    simpa using this

/-! ### Claim C7 -/

/-- C7: with a caller-supplied persistent run directory the advisory
lock (`synspec.lock`, modelled from the spec: `utils.folderlock`) is
held over the whole body: for every environment and outcome the trace is
exactly one acquisition, the lock-free body, and one release — release
happens on every exit path including solver failure; a second
invocation targeting an already-locked directory fails with a busy
error, having produced no events; temp-directory mode takes no lock. -/
theorem C7_lock_scoped :
    ∀ (sp : Synspec) (env : Env) (model rd : String)
      (outdir? outfile? : Option String) (fs0 : FS),
      (fs0.isFile (rundirOf fs0 rd) = false →
        env.heldLocks.contains (rundirOf fs0 rd) = false →
        ∃ body, (Synspec.run sp env model (some rd) outdir? outfile? fs0).tr =
            Ev.lockAcq (rundirOf fs0 rd) "synspec.lock" :: body ++
              [Ev.lockRel (rundirOf fs0 rd)] ∧
          ∀ ev ∈ body, ev.isLock = false) ∧
      (fs0.isFile (rundirOf fs0 rd) = false →
        env.heldLocks.contains (rundirOf fs0 rd) = true →
        (Synspec.run sp env model (some rd) outdir? outfile? fs0).err = some .busy ∧
        (Synspec.run sp env model (some rd) outdir? outfile? fs0).tr = [] ∧
        (Synspec.run sp env model (some rd) outdir? outfile? fs0).sp = sp) ∧
      (∀ ev ∈ (Synspec.run sp env model none outdir? outfile? fs0).tr,
        ev.isLock = false) := by
  intro sp env model rd outdir? outfile? fs0
  refine ⟨?_, ?_, ?_⟩
  · intro hnf hnl
    rw [run_persistent_eq sp env model rd outdir? outfile? fs0 hnf hnl]
    refine ⟨(bodyOf sp env model rd outdir? outfile? fs0).2.2.2, rfl, ?_⟩
    intro ev hev
    simp only [bodyOf] at hev
    exact runBody_tr_no_lock env (modelNameOf fs0 model) (resolveIn fs0.cwd model)
      (rundirOf fs0 rd) (outdirOf fs0 rd outdir?) (outfileOf fs0 model outfile?)
      sp (fsAfterMkdir fs0 rd) ev hev
  · intro hnf hl
    rw [run_busy_eq sp env model rd outdir? outfile? fs0 hnf hl]
    exact ⟨rfl, rfl, rfl⟩
  · intro ev hev
    rw [run_temp_eq sp env model outdir? outfile? fs0] at hev
    exact runBody_tr_no_lock env (modelNameOf fs0 model) (resolveIn fs0.cwd model)
      (resolveIn fs0.cwd env.tmpdir) (resolveIn fs0.cwd (outdir?.getD fs0.cwd))
      (outfileOf fs0 model outfile?) sp (fs0.addDir (resolveIn fs0.cwd env.tmpdir)) ev hev

theorem C7_lock_scoped_witness :
    (∃ body, (Synspec.run exSp exEnvOk "hhe35lt" (some ".") none none exFS).tr =
        Ev.lockAcq (rundirOf exFS ".") "synspec.lock" :: body ++
          [Ev.lockRel (rundirOf exFS ".")] ∧
      ∀ ev ∈ body, ev.isLock = false) ∧
    (Synspec.run exSp exEnvBusy "hhe35lt" (some ".") none none exFS).err = some .busy ∧
    (∀ ev ∈ (Synspec.run exSp exEnvOk "hhe35lt" none none none exFS).tr,
      ev.isLock = false) := by
  refine ⟨?_, ?_, ?_⟩
  · exact (C7_lock_scoped exSp exEnvOk "hhe35lt" "." none none exFS).1
      (by decide) (by decide)
  · exact ((C7_lock_scoped exSp exEnvBusy "hhe35lt" "." none none exFS).2.1
      (by decide) (by decide)).1
  · exact (C7_lock_scoped exSp exEnvOk "hhe35lt" "." none none exFS).2.2

/-! ### Link-table persistence helpers -/

theorem detectFort56_getA_persist (env : Env) (model : String) (fs : FS)
    (links : List (String × String)) (k v : String) (h : getA links k = some v) :
    getA (detectFort56 env model fs links).2 k = some v := by
  simp only [detectFort56]
  split
  · exact h
  · next hnone =>
    split
    · exact h
    split
    · split
      · split
        · by_cases hk : k = "fort.56"
          · subst hk
            rw [hnone] at h
            exact Option.noConfusion h
          · rw [getA_setA_ne _ _ _ _ hk]
            exact h
        · exact h
      · exact h
    · exact h

theorem copyToRundir_linkfiles (env : Env) (model modelpath rundir : String)
    (sp : Synspec) (fs : FS) (t : String)
    (hget : getA sp.linkfiles "{model}.5" = some t)
    (hfile : fs.isFile (pyFormat t model modelpath) = true) :
    (copyToRundir env model modelpath rundir sp fs).2.1.linkfiles =
      (detectFort56 env model fs (mergeReqs fs sp.linkfiles
        (discoverReqs (env.readinput (fs.abs (pyFormat t model modelpath)))))).2 := by
  simp only [copyToRundir, hget, hfile, if_true]
  split
  · next e links2 heq =>
    have : (detectFort56 env model fs (mergeReqs fs sp.linkfiles
        (discoverReqs (env.readinput (fs.abs (pyFormat t model modelpath)))))).2 = links2 := by
      rw [heq]
    rw [this]
  · next links2 heq =>
    have : (detectFort56 env model fs (mergeReqs fs sp.linkfiles
        (discoverReqs (env.readinput (fs.abs (pyFormat t model modelpath)))))).2 = links2 := by
      rw [heq]
    rw [this]

theorem run_sp_fields (sp : Synspec) (env : Env) (model : String)
    (rundir? outdir? outfile? : Option String) (fs0 : FS) :
    (Synspec.run sp env model rundir? outdir? outfile? fs0).sp.version = sp.version ∧
    (Synspec.run sp env model rundir? outdir? outfile? fs0).sp.synspec = sp.synspec := by
  cases rundir? with
  | none =>
    rw [run_temp_eq]
    dsimp only
    rw [runBody_sp]
    exact ⟨(copyToRundir_sp_fields _ _ _ _ _ _).2, (copyToRundir_sp_fields _ _ _ _ _ _).1⟩
  | some rd =>
    simp only [Synspec.run]
    split
    · exact ⟨rfl, rfl⟩
    · split
      · exact ⟨rfl, rfl⟩
      · dsimp only
        rw [runBody_sp]
        exact ⟨(copyToRundir_sp_fields _ _ _ _ _ _).2, (copyToRundir_sp_fields _ _ _ _ _ _).1⟩

/-! ### Claim C10 -/

/-- C10: `run` leaves `version` and the solver path unchanged in every
mode and outcome, while the link table after a persistent-mode call is
exactly the table produced by the staging phase (discovered dependencies
and any auto-detected `fort.56` merged in, persisting even when a later
phase fails); in particular every discovered candidate that existed on
disk and was not yet a destination key is a self-mapped entry of the
instance's table after `run` returns. -/
theorem C10_run_mutates_linkfiles :
    ∀ (sp : Synspec) (env : Env) (model : String)
      (rundir? outdir? outfile? : Option String) (fs0 : FS),
      ((Synspec.run sp env model rundir? outdir? outfile? fs0).sp.version = sp.version ∧
       (Synspec.run sp env model rundir? outdir? outfile? fs0).sp.synspec = sp.synspec) ∧
      (∀ rd, rundir? = some rd →
        fs0.isFile (rundirOf fs0 rd) = false →
        env.heldLocks.contains (rundirOf fs0 rd) = false →
        ((Synspec.run sp env model (some rd) outdir? outfile? fs0).sp =
            (copyToRundir env (modelNameOf fs0 model) (resolveIn fs0.cwd model)
              (rundirOf fs0 rd) sp
              (removePotentialOutfiles (outdirOf fs0 rd outdir?)
                (outfileOf fs0 model outfile?) (fsAfterMkdir fs0 rd)).1).2.1 ∧
          ∀ t, getA sp.linkfiles "{model}.5" = some t →
            (removePotentialOutfiles (outdirOf fs0 rd outdir?)
                (outfileOf fs0 model outfile?) (fsAfterMkdir fs0 rd)).1.isFile
              (pyFormat t (modelNameOf fs0 model) (resolveIn fs0.cwd model)) = true →
            ∀ r, r ∈ discoverReqs (env.readinput
                ((removePotentialOutfiles (outdirOf fs0 rd outdir?)
                  (outfileOf fs0 model outfile?) (fsAfterMkdir fs0 rd)).1.abs
                  (pyFormat t (modelNameOf fs0 model) (resolveIn fs0.cwd model)))) →
              (removePotentialOutfiles (outdirOf fs0 rd outdir?)
                (outfileOf fs0 model outfile?) (fsAfterMkdir fs0 rd)).1.pathExists r = true →
              getA sp.linkfiles r = none →
              getA (Synspec.run sp env model (some rd) outdir? outfile? fs0).sp.linkfiles r
                = some r)) := by
  intro sp env model rundir? outdir? outfile? fs0
  refine ⟨run_sp_fields sp env model rundir? outdir? outfile? fs0, ?_⟩
  intro rd hrd hnf hnl
  have hsp : (Synspec.run sp env model (some rd) outdir? outfile? fs0).sp =
      (copyToRundir env (modelNameOf fs0 model) (resolveIn fs0.cwd model)
        (rundirOf fs0 rd) sp
        (removePotentialOutfiles (outdirOf fs0 rd outdir?)
          (outfileOf fs0 model outfile?) (fsAfterMkdir fs0 rd)).1).2.1 := by
    rw [run_persistent_eq sp env model rd outdir? outfile? fs0 hnf hnl]
    dsimp only
    rw [bodyOf, runBody_sp]
  refine ⟨hsp, ?_⟩
  intro t hget hfile r hr hex hnot
  rw [hsp, copyToRundir_linkfiles env (modelNameOf fs0 model) (resolveIn fs0.cwd model)
    (rundirOf fs0 rd) sp _ t hget hfile]
  apply detectFort56_getA_persist
  rw [getA_mergeReqs]
  rw [if_pos ⟨hr, hex, hnot⟩]

theorem C10_run_mutates_linkfiles_witness :
    (Synspec.run exSp exEnvDisc "hhe35lt" (some ".") none none
      ⟨"/t", ["/t/fort.19", "/t/fort.55", "/t/hhe35lt.5", "/t/hhe35lt.7", "/t/nst_l"],
        ["/", "/t", "/t/data"]⟩).sp.version = exSp.version ∧
    getA (Synspec.run exSp exEnvDisc "hhe35lt" (some ".") none none
      ⟨"/t", ["/t/fort.19", "/t/fort.55", "/t/hhe35lt.5", "/t/hhe35lt.7", "/t/nst_l"],
        ["/", "/t", "/t/data"]⟩).sp.linkfiles "nst_l" = some "nst_l" ∧
    getA (Synspec.run exSp exEnvDisc "hhe35lt" (some ".") none none
      ⟨"/t", ["/t/fort.19", "/t/fort.55", "/t/hhe35lt.5", "/t/hhe35lt.7", "/t/nst_l"],
        ["/", "/t", "/t/data"]⟩).sp.linkfiles "data" = some "data" := by
  refine ⟨(C10_run_mutates_linkfiles exSp exEnvDisc "hhe35lt" (some ".") none none
    ⟨"/t", ["/t/fort.19", "/t/fort.55", "/t/hhe35lt.5", "/t/hhe35lt.7", "/t/nst_l"],
      ["/", "/t", "/t/data"]⟩).1.1, ?_, ?_⟩
  · exact ((C10_run_mutates_linkfiles exSp exEnvDisc "hhe35lt" (some ".") none none
      ⟨"/t", ["/t/fort.19", "/t/fort.55", "/t/hhe35lt.5", "/t/hhe35lt.7", "/t/nst_l"],
        ["/", "/t", "/t/data"]⟩).2 "." rfl (by decide) (by decide)).2
      "{modelpath}.5" (by decide) (by decide) "nst_l" (by decide) (by decide) (by decide)
  · exact ((C10_run_mutates_linkfiles exSp exEnvDisc "hhe35lt" (some ".") none none
      ⟨"/t", ["/t/fort.19", "/t/fort.55", "/t/hhe35lt.5", "/t/hhe35lt.7", "/t/nst_l"],
        ["/", "/t", "/t/data"]⟩).2 "." rfl (by decide) (by decide)).2
      "{modelpath}.5" (by decide) (by decide) "data" (by decide) (by decide) (by decide)

/-! ### `_check_files` characterization -/

theorem checkFiles_none_iff (model rundir : String) (fs : FS) :
    checkFiles model rundir fs = none ↔
      ∀ f ∈ ["fort.19", "fort.55", "{model}.5", "{model}.7"],
        fs.pathExists (resolveIn rundir (pyFormatModel f model)) = true := by
  simp only [checkFiles]
  split
  · next f hf =>
    constructor
    · intro h; exact Option.noConfusion h
    · intro hall
      have hmem := List.mem_of_find?_eq_some hf
      have hpred := List.find?_some hf
      exfalso
      rw [hall f hmem] at hpred
      simp at hpred
  · next hnone =>
    constructor
    · intro _ f hfm
      have := List.find?_eq_none.mp hnone f hfm
      by_cases hc : fs.pathExists (resolveIn rundir (pyFormatModel f model)) = true
      · exact hc
      · exact absurd (by simp [hc]) this
    · intro _; rfl

theorem checkFiles_some_char (model rundir : String) (fs : FS) (e : PyErr)
    (h : checkFiles model rundir fs = some e) :
    ∃ f ∈ ["fort.19", "fort.55", "{model}.5", "{model}.7"],
      fs.pathExists (resolveIn rundir (pyFormatModel f model)) = false ∧
      e = .fileNotFound (resolveIn rundir (pyFormatModel f model) ++ " not found") := by
  revert h
  simp only [checkFiles]
  split
  · next f hf =>
    intro h
    have hmem := List.mem_of_find?_eq_some hf
    have hpred := List.find?_some hf
    refine ⟨f, hmem, ?_, ?_⟩
    · by_cases hc : fs.pathExists (resolveIn rundir (pyFormatModel f model)) = true
      · rw [hc] at hpred; simp at hpred
      · simpa using hc
    · injection h with h2
      exact h2.symm
  · intro h; exact Option.noConfusion h

theorem run_check_fail (sp : Synspec) (env : Env) (model rd : String)
    (outdir? outfile? : Option String) (fs0 : FS) (sp' : Synspec) (fs' : FS)
    (trc : List Ev) (e : PyErr)
    (hnf : fs0.isFile (rundirOf fs0 rd) = false)
    (hnl : env.heldLocks.contains (rundirOf fs0 rd) = false)
    (hcopy : copyToRundir env (modelNameOf fs0 model) (resolveIn fs0.cwd model)
      (rundirOf fs0 rd) sp
      (removePotentialOutfiles (outdirOf fs0 rd outdir?) (outfileOf fs0 model outfile?)
        (fsAfterMkdir fs0 rd)).1 = (none, sp', fs', trc))
    (hcheck : checkFiles (modelNameOf fs0 model) (rundirOf fs0 rd) fs' = some e) :
    (Synspec.run sp env model (some rd) outdir? outfile? fs0).err = some e ∧
    ∀ ev ∈ (Synspec.run sp env model (some rd) outdir? outfile? fs0).tr,
      ev.isProc = false := by
  rw [run_persistent_eq sp env model rd outdir? outfile? fs0 hnf hnl]
  have hbody : bodyOf sp env model rd outdir? outfile? fs0 =
      (some e, sp', fs',
        (removePotentialOutfiles (outdirOf fs0 rd outdir?) (outfileOf fs0 model outfile?)
          (fsAfterMkdir fs0 rd)).2 ++ trc) := by
    rw [bodyOf]
    exact runBody_eq_of_check_fail env (modelNameOf fs0 model) (resolveIn fs0.cwd model)
      (rundirOf fs0 rd) (outdirOf fs0 rd outdir?) (outfileOf fs0 model outfile?)
      sp sp' (fsAfterMkdir fs0 rd) fs' trc e hcopy hcheck
  rw [hbody]
  refine ⟨rfl, ?_⟩
  intro ev hev
  dsimp only at hev
  rcases List.mem_cons.mp hev with h1 | h1
  · rw [h1]; rfl
  rcases List.mem_append.mp h1 with h2 | h2
  · rcases List.mem_append.mp h2 with h3 | h3
    · obtain ⟨p, hp⟩ := removePotentialOutfiles_tr_deleted _ _ _ ev h3
      rw [hp]; rfl
    · have htrc : (copyToRundir env (modelNameOf fs0 model) (resolveIn fs0.cwd model)
          (rundirOf fs0 rd) sp
          (removePotentialOutfiles (outdirOf fs0 rd outdir?) (outfileOf fs0 model outfile?)
            (fsAfterMkdir fs0 rd)).1).2.2.2 = trc := by rw [hcopy]
      obtain ⟨s, d, hp⟩ := copyToRundir_tr_symlinked env (modelNameOf fs0 model)
        (resolveIn fs0.cwd model) (rundirOf fs0 rd) sp _ ev (htrc ▸ h3)
      rw [hp]; rfl
  · have : ev = Ev.lockRel (rundirOf fs0 rd) := by simpa using h2
    rw [this]; rfl

/-! ### Claim C5 -/

/-- C5: after staging, the four required names — `fort.19`, `fort.55`,
`{model}.5` and `{model}.7` with the model name substituted — are
verified to exist inside the run directory: verification succeeds
exactly when all four exist; on the first missing one it produces a
`FileNotFoundError` naming the absolute expected path, and a run whose
verification fails returns that error and never spawns the solver. -/
theorem C5_required_files :
    (∀ (model rundir : String) (fs' : FS),
      (checkFiles model rundir fs' = none ↔
        ∀ f ∈ ["fort.19", "fort.55", "{model}.5", "{model}.7"],
          fs'.pathExists (resolveIn rundir (pyFormatModel f model)) = true) ∧
      (∀ e, checkFiles model rundir fs' = some e →
        ∃ f ∈ ["fort.19", "fort.55", "{model}.5", "{model}.7"],
          fs'.pathExists (resolveIn rundir (pyFormatModel f model)) = false ∧
          e = .fileNotFound (resolveIn rundir (pyFormatModel f model) ++ " not found") ∧
          isAbsolute (resolveIn rundir (pyFormatModel f model)) = true)) ∧
    (∀ (sp : Synspec) (env : Env) (model rd : String)
      (outdir? outfile? : Option String) (fs0 : FS) (sp' : Synspec) (fs' : FS)
      (trc : List Ev) (e : PyErr),
      fs0.isFile (rundirOf fs0 rd) = false →
      env.heldLocks.contains (rundirOf fs0 rd) = false →
      copyToRundir env (modelNameOf fs0 model) (resolveIn fs0.cwd model)
        (rundirOf fs0 rd) sp
        (removePotentialOutfiles (outdirOf fs0 rd outdir?) (outfileOf fs0 model outfile?)
          (fsAfterMkdir fs0 rd)).1 = (none, sp', fs', trc) →
      checkFiles (modelNameOf fs0 model) (rundirOf fs0 rd) fs' = some e →
      (Synspec.run sp env model (some rd) outdir? outfile? fs0).err = some e ∧
      ∀ ev ∈ (Synspec.run sp env model (some rd) outdir? outfile? fs0).tr,
        ev.isProc = false) := by
  constructor
  · intro model rundir fs'
    refine ⟨checkFiles_none_iff model rundir fs', ?_⟩
    intro e he
    obtain ⟨f, hf, hne, heq⟩ := checkFiles_some_char model rundir fs' e he
    exact ⟨f, hf, hne, heq, isAbsolute_resolveIn rundir (pyFormatModel f model)⟩
  · intro sp env model rd outdir? outfile? fs0 sp' fs' trc e hnf hnl hcopy hcheck
    exact run_check_fail sp env model rd outdir? outfile? fs0 sp' fs' trc e
      hnf hnl hcopy hcheck

theorem C5_required_files_witness :
    (checkFiles "hhe35lt" "/t" exFSNo19 = none ↔
      ∀ f ∈ ["fort.19", "fort.55", "{model}.5", "{model}.7"],
        exFSNo19.pathExists (resolveIn "/t" (pyFormatModel f "hhe35lt")) = true) ∧
    (Synspec.run exSp exEnvOk "hhe35lt" (some ".") none none exFSNo19).err =
      some (.fileNotFound "/t/fort.19 not found") ∧
    ∀ ev ∈ (Synspec.run exSp exEnvOk "hhe35lt" (some ".") none none exFSNo19).tr,
      ev.isProc = false := by
  refine ⟨(C5_required_files.1 "hhe35lt" "/t" exFSNo19).1, ?_, ?_⟩
  · exact (C5_required_files.2 exSp exEnvOk "hhe35lt" "." none none exFSNo19
      exSp exFSNo19 [] (.fileNotFound "/t/fort.19 not found")
      (by decide) (by decide) (by decide) (by decide)).1
  · exact (C5_required_files.2 exSp exEnvOk "hhe35lt" "." none none exFSNo19
      exSp exFSNo19 [] (.fileNotFound "/t/fort.19 not found")
      (by decide) (by decide) (by decide) (by decide)).2

/-! ### Further path and table lemmas -/

theorem normSegs_append (X Y : List String) :
    normSegs (normSegs X ++ Y) = normSegs (X ++ Y) := by
  simp only [normSegs, List.foldl_append]
  congr 1
  have h1 : ".." ∉ X.foldl
      (fun acc seg => if seg = ".." then acc.dropLast else acc ++ [seg]) [] := by
    intro hmem
    exact (mem_normSegs X ".." hmem).2 rfl
  simpa [normSegs] using normSegs_eq_self _ h1

theorem resolveIn_dot (a q : String) :
    resolveIn (resolveIn a ".") q = resolveIn a q := by
  by_cases hq : isAbsolute q = true
  · simp [resolveIn, hq]
  · have hdot : resolveIn a "." = joinAbs (normSegs (rawSegs a)) := by
      have : rawSegs "." = [] := by decide
      simp [resolveIn, isAbsolute, this]
    have hgood : ∀ s ∈ normSegs (rawSegs a), goodSeg s ∧ s ≠ ".." := by
      intro s hs
      obtain ⟨h1, h2⟩ := mem_normSegs _ _ hs
      exact ⟨goodSeg_rawSegs a s h1, h2⟩
    have habs : isAbsolute (resolveIn a ".") = true := isAbsolute_resolveIn a "."
    rw [hdot]
    simp only [resolveIn, hq, if_false]
    rw [if_neg (by simp [hq])]
    rw [rawSegs_joinAbs _ (fun s hs => (hgood s hs).1)]
    rw [normSegs_append]
    simp

theorem mem_setA_of_getA_none (l : List (String × String)) (k v : String)
    (h : getA l k = none) : (k, v) ∈ setA l k v := by
  induction l with
  | nil => simp [setA]
  | cons p rest ih =>
    simp only [getA] at h
    by_cases hp : p.1 = k
    · rw [if_pos hp] at h
      exact Option.noConfusion h
    · rw [if_neg hp] at h
      simp only [setA]
      rw [if_neg hp]
      exact List.mem_cons_of_mem _ (ih h)

theorem copyToRundir_eq_of_detect (env : Env) (model modelpath rundir : String)
    (sp : Synspec) (fs : FS) (t : String) (res : Option PyErr)
    (links2 : List (String × String))
    (hget : getA sp.linkfiles "{model}.5" = some t)
    (hfile : fs.isFile (pyFormat t model modelpath) = true)
    (hdetect : detectFort56 env model fs (mergeReqs fs sp.linkfiles
      (discoverReqs (env.readinput (fs.abs (pyFormat t model modelpath))))) =
      (res, links2)) :
    copyToRundir env model modelpath rundir sp fs =
      match res with
      | some e => (some e, { sp with linkfiles := links2 }, fs, [])
      | none =>
        (none, { sp with linkfiles := links2 },
          (stageLinks model modelpath rundir links2 fs).1,
          (stageLinks model modelpath rundir links2 fs).2) := by
  cases res with
  | some e => simp only [copyToRundir, hget, hfile, if_true, hdetect]
  | none => simp only [copyToRundir, hget, hfile, if_true, hdetect]

/-! ### Claim C3 -/

/-- C3: when the link table has no explicit `fort.56` entry, the
`fort.55` source (template formatted with the model name) is parsed for
`ichemc`: a non-zero flag with `fort.56` present on disk adds a
self-mapped entry and staging makes `fort.56` available in the run
directory; a non-zero flag with `fort.56` absent fails discovery — and
hence the whole run — with a `FileNotFoundError` naming `fort.56`; a
zero flag changes nothing; and with an explicit caller entry the
configuration descriptor is not consulted (the result is the identity
for every environment). -/
theorem C3_fort56_detection :
    (∀ (env : Env) (model : String) (fs : FS) (links : List (String × String)) (v : String),
      getA links "fort.56" = some v → detectFort56 env model fs links = (none, links)) ∧
    (∀ (env : Env) (model : String) (fs : FS) (links : List (String × String)) (t : String),
      getA links "fort.56" = none → getA links "fort.55" = some t →
      fs.isFile (pyFormatModel t model) = true →
      ((env.read55f (fs.abs (pyFormatModel t model))).ichemc ≠ 0 →
        (fs.isFile "fort.56" = true →
          detectFort56 env model fs links = (none, setA links "fort.56" "fort.56")) ∧
        (fs.isFile "fort.56" = false →
          detectFort56 env model fs links =
            (some (.fileNotFound "Need for fort.56 detected but not found"), links))) ∧
      ((env.read55f (fs.abs (pyFormatModel t model))).ichemc = 0 →
        detectFort56 env model fs links = (none, links))) ∧
    (∀ (sp : Synspec) (env : Env) (model rd : String)
      (outdir? outfile? : Option String) (fs0 : FS) (t : String),
      fs0.isFile (rundirOf fs0 rd) = false →
      env.heldLocks.contains (rundirOf fs0 rd) = false →
      getA sp.linkfiles "{model}.5" = some t →
      (fs1Of model rd outdir? outfile? fs0).isFile
        (pyFormat t (modelNameOf fs0 model) (resolveIn fs0.cwd model)) = true →
      getA (mergedLinksOf sp env model rd outdir? outfile? fs0 t) "fort.56" = none →
      ∀ t55, getA (mergedLinksOf sp env model rd outdir? outfile? fs0 t) "fort.55" = some t55 →
        (fs1Of model rd outdir? outfile? fs0).isFile
          (pyFormatModel t55 (modelNameOf fs0 model)) = true →
        (env.read55f ((fs1Of model rd outdir? outfile? fs0).abs
          (pyFormatModel t55 (modelNameOf fs0 model)))).ichemc ≠ 0 →
        ((fs1Of model rd outdir? outfile? fs0).isFile "fort.56" = false →
          (Synspec.run sp env model (some rd) outdir? outfile? fs0).err =
            some (.fileNotFound "Need for fort.56 detected but not found")) ∧
        ((fs1Of model rd outdir? outfile? fs0).isFile "fort.56" = true →
          (copyToRundir env (modelNameOf fs0 model) (resolveIn fs0.cwd model)
            (rundirOf fs0 rd) sp (fs1Of model rd outdir? outfile? fs0)).1 = none ∧
          (copyToRundir env (modelNameOf fs0 model) (resolveIn fs0.cwd model)
            (rundirOf fs0 rd) sp
            (fs1Of model rd outdir? outfile? fs0)).2.2.1.isFile
              (resolveIn (rundirOf fs0 rd) "fort.56") = true)) := by
  refine ⟨?_, ?_, ?_⟩
  · intro env model fs links v h
    simp only [detectFort56, h]
  · intro env model fs links t hnone h55 hfile
    refine ⟨fun hchem => ⟨fun h56 => ?_, fun h56 => ?_⟩, fun hchem => ?_⟩
    · simp only [detectFort56, hnone, h55, hfile, if_true, h56]
      rw [if_pos hchem]
    · simp only [detectFort56, hnone, h55, hfile, if_true, h56]
      rw [if_pos hchem]
      simp
    · simp only [detectFort56, hnone, h55, hfile, if_true, hchem]
      simp
  · intro sp env model rd outdir? outfile? fs0 t hnf hnl hget hfile hno56 t55 h55
      hfile55 hchem
    constructor
    · intro h56absent
      have hdetect : detectFort56 env (modelNameOf fs0 model)
          (fs1Of model rd outdir? outfile? fs0)
          (mergedLinksOf sp env model rd outdir? outfile? fs0 t) =
          (some (.fileNotFound "Need for fort.56 detected but not found"),
            mergedLinksOf sp env model rd outdir? outfile? fs0 t) := by
        simp only [detectFort56, hno56, h55, hfile55, if_true, h56absent]
        rw [if_pos hchem]
        simp
      have hcopy := copyToRundir_eq_of_detect env (modelNameOf fs0 model)
        (resolveIn fs0.cwd model) (rundirOf fs0 rd) sp
        (fs1Of model rd outdir? outfile? fs0) t
        (some (.fileNotFound "Need for fort.56 detected but not found"))
        (mergedLinksOf sp env model rd outdir? outfile? fs0 t)
        hget hfile (by simpa only [mergedLinksOf] using hdetect)
      simp only [fs1Of] at hcopy
      rw [run_persistent_eq sp env model rd outdir? outfile? fs0 hnf hnl]
      dsimp only
      rw [bodyOf, runBody_eq_of_copy_fail env (modelNameOf fs0 model)
        (resolveIn fs0.cwd model) (rundirOf fs0 rd) (outdirOf fs0 rd outdir?)
        (outfileOf fs0 model outfile?) sp _ (fsAfterMkdir fs0 rd) _ _ _ hcopy]
    · intro h56file
      have hdetect : detectFort56 env (modelNameOf fs0 model)
          (fs1Of model rd outdir? outfile? fs0)
          (mergedLinksOf sp env model rd outdir? outfile? fs0 t) =
          (none, setA (mergedLinksOf sp env model rd outdir? outfile? fs0 t)
            "fort.56" "fort.56") := by
        simp only [detectFort56, hno56, h55, hfile55, if_true, h56file]
        rw [if_pos hchem]
      have hcopy := copyToRundir_eq_of_detect env (modelNameOf fs0 model)
        (resolveIn fs0.cwd model) (rundirOf fs0 rd) sp
        (fs1Of model rd outdir? outfile? fs0) t none
        (setA (mergedLinksOf sp env model rd outdir? outfile? fs0 t) "fort.56" "fort.56")
        hget hfile (by simpa only [mergedLinksOf] using hdetect)
      rw [hcopy]
      refine ⟨rfl, ?_⟩
      dsimp only
      have hmem : ("fort.56", "fort.56") ∈
          setA (mergedLinksOf sp env model rd outdir? outfile? fs0 t) "fort.56" "fort.56" :=
        mem_setA_of_getA_none _ _ _ hno56
      have hfmt : pyFormat "fort.56" (modelNameOf fs0 model)
          (resolveIn fs0.cwd model) = "fort.56" := rfl
      by_cases hskip : rundirOf fs0 rd =
          resolveIn (fs1Of model rd outdir? outfile? fs0).cwd "."
      · have heq : resolveIn (rundirOf fs0 rd) "fort.56" =
            (fs1Of model rd outdir? outfile? fs0).abs "fort.56" := by
          rw [hskip]
          simp only [FS.abs]
          exact resolveIn_dot (fs1Of model rd outdir? outfile? fs0).cwd "fort.56"
        rw [heq]
        apply FS.isFile_of_mem
        apply stageLinks_files_mono
        simpa [FS.isFile] using h56file
      · apply FS.isFile_of_mem
        have := stageLinks_mem_of_not_skip (modelNameOf fs0 model)
          (resolveIn fs0.cwd model) (rundirOf fs0 rd)
          (setA (mergedLinksOf sp env model rd outdir? outfile? fs0 t) "fort.56" "fort.56")
          (fs1Of model rd outdir? outfile? fs0)
          ("fort.56", "fort.56") hmem (fun hc => hskip hc.1)
        simpa [hfmt] using this

theorem C3_fort56_detection_witness :
    (Synspec.run exSp exEnvChem "hhe35lt" (some ".") none none exFS).err =
      some (.fileNotFound "Need for fort.56 detected but not found") ∧
    (copyToRundir exEnvChem (modelNameOf exFS56 "hhe35lt") (resolveIn "/t" "hhe35lt")
      (rundirOf exFS56 ".") exSp (fs1Of "hhe35lt" "." none none exFS56)).1 = none ∧
    (copyToRundir exEnvChem (modelNameOf exFS56 "hhe35lt") (resolveIn "/t" "hhe35lt")
      (rundirOf exFS56 ".") exSp (fs1Of "hhe35lt" "." none none exFS56)).2.2.1.isFile
        (resolveIn (rundirOf exFS56 ".") "fort.56") = true ∧
    detectFort56 exEnvChem "hhe35lt" exFS [("fort.56", "fort.56")] =
      (none, [("fort.56", "fort.56")]) := by
  have hcwd : resolveIn "/t" "hhe35lt" = resolveIn exFS56.cwd "hhe35lt" := rfl
  refine ⟨?_, ?_, ?_, ?_⟩
  · exact (C3_fort56_detection.2.2 exSp exEnvChem "hhe35lt" "." none none exFS
      "{modelpath}.5" (by decide) (by decide) (by decide) (by decide) (by decide)
      "fort.55" (by decide) (by decide) (by decide)).1 (by decide)
  · rw [hcwd]
    exact ((C3_fort56_detection.2.2 exSp exEnvChem "hhe35lt" "." none none exFS56
      "{modelpath}.5" (by decide) (by decide) (by decide) (by decide) (by decide)
      "fort.55" (by decide) (by decide) (by decide)).2 (by decide)).1
  · rw [hcwd]
    exact ((C3_fort56_detection.2.2 exSp exEnvChem "hhe35lt" "." none none exFS56
      "{modelpath}.5" (by decide) (by decide) (by decide) (by decide) (by decide)
      "fort.55" (by decide) (by decide) (by decide)).2 (by decide)).2
  · exact C3_fort56_detection.1 exEnvChem "hhe35lt" exFS
      [("fort.56", "fort.56")] "fort.56" (by decide)

/-! ### Claim C2 -/

theorem fsAfterMkdir_cwd (fs0 : FS) (rd : String) :
    (fsAfterMkdir fs0 rd).cwd = fs0.cwd := by
  simp only [fsAfterMkdir]
  split <;> rfl

/-- C2: post-run extraction runs exactly when the Runner call succeeded:
a fully successful run ends with the destination directory existing and
the copy events being exactly the four fixed internal outputs
(`fort.7/12/16/17` → `.spec/.iden/.eqws/.cont`) plus the log
(`fort.log` → `.log`); every copy event implies the solver was spawned
and exited 0; and a run failing with the solver's non-zero exit
performs no copies at all. -/
theorem C2_extract_iff_success :
    ∀ (sp : Synspec) (env : Env) (model rd : String)
      (outdir? outfile? : Option String) (fs0 : FS),
      fs0.isFile (rundirOf fs0 rd) = false →
      env.heldLocks.contains (rundirOf fs0 rd) = false →
      ((Synspec.run sp env model (some rd) outdir? outfile? fs0).err = none →
        (Synspec.run sp env model (some rd) outdir? outfile? fs0).tr.filter Ev.isCopied =
          (extractPairs (rundirOf fs0 rd) (outdirOf fs0 rd outdir?)
            (outfileOf fs0 model outfile?)).map (fun p => Ev.copied p.1 p.2) ∧
        outdirOf fs0 rd outdir? ∈
          (Synspec.run sp env model (some rd) outdir? outfile? fs0).fs.dirs) ∧
      (∀ s d, Ev.copied s d ∈
          (Synspec.run sp env model (some rd) outdir? outfile? fs0).tr →
        env.solverExit = 0 ∧
        Ev.proc [sp.synspec]
            (resolveIn (rundirOf fs0 rd) (modelNameOf fs0 model ++ ".5"))
            (resolveIn (rundirOf fs0 rd) "fort.log") none (rundirOf fs0 rd) true ∈
          (Synspec.run sp env model (some rd) outdir? outfile? fs0).tr) ∧
      (∀ k, (Synspec.run sp env model (some rd) outdir? outfile? fs0).err =
          some (.calledProcessError k) →
        (Synspec.run sp env model (some rd) outdir? outfile? fs0).tr.filter
          Ev.isCopied = []) := by
  intro sp env model rd outdir? outfile? fs0 hnf hnl
  rw [run_persistent_eq sp env model rd outdir? outfile? fs0 hnf hnl]
  dsimp only
  refine ⟨?_, ?_, ?_⟩
  · intro herr
    obtain ⟨hfilter, hdir, _, _⟩ := runBody_ok env (modelNameOf fs0 model)
      (resolveIn fs0.cwd model) (rundirOf fs0 rd) (outdirOf fs0 rd outdir?)
      (outfileOf fs0 model outfile?) sp (fsAfterMkdir fs0 rd) herr
    constructor
    · rw [List.filter_append, List.filter_cons]
      rw [if_neg (by simp [Ev.isCopied])]
      rw [show (([Ev.lockRel (rundirOf fs0 rd)]).filter Ev.isCopied) = [] from rfl]
      rw [List.append_nil]
      exact hfilter
    · have : resolveIn fs0.cwd (outdirOf fs0 rd outdir?) = outdirOf fs0 rd outdir? := by
        simp only [outdirOf]
        exact resolveIn_idem _ _ _
      rw [fsAfterMkdir_cwd, this] at hdir
      exact hdir
  · intro s d hmem
    have hb : Ev.copied s d ∈ (bodyOf sp env model rd outdir? outfile? fs0).2.2.2 := by
      rcases List.mem_cons.mp hmem with h1 | h1
      · exact Ev.noConfusion h1
      rcases List.mem_append.mp h1 with h2 | h2
      · exact h2
      · simp at h2
    obtain ⟨hz, hp⟩ := runBody_copied_imp env (modelNameOf fs0 model)
      (resolveIn fs0.cwd model) (rundirOf fs0 rd) (outdirOf fs0 rd outdir?)
      (outfileOf fs0 model outfile?) sp (fsAfterMkdir fs0 rd) s d hb
    exact ⟨hz, List.mem_cons_of_mem _ (List.mem_append.mpr (Or.inl hp))⟩
  · intro k herr
    have hfilter := runBody_fail_no_copied env (modelNameOf fs0 model)
      (resolveIn fs0.cwd model) (rundirOf fs0 rd) (outdirOf fs0 rd outdir?)
      (outfileOf fs0 model outfile?) sp (fsAfterMkdir fs0 rd) k herr
    rw [List.filter_append, List.filter_cons]
    rw [if_neg (by simp [Ev.isCopied])]
    rw [show (([Ev.lockRel (rundirOf fs0 rd)]).filter Ev.isCopied) = [] from rfl]
    rw [List.append_nil]
    exact hfilter

theorem C2_extract_iff_success_witness :
    (Synspec.run exSp exEnvOk "hhe35lt" (some ".") none none exFS).tr.filter Ev.isCopied =
      (extractPairs (rundirOf exFS ".") (outdirOf exFS "." none)
        (outfileOf exFS "hhe35lt" none)).map (fun p => Ev.copied p.1 p.2) ∧
    outdirOf exFS "." none ∈
      (Synspec.run exSp exEnvOk "hhe35lt" (some ".") none none exFS).fs.dirs ∧
    (Synspec.run exSp exEnvFail "hhe35lt" (some ".") none none exFSStale).tr.filter
      Ev.isCopied = [] := by
  refine ⟨?_, ?_, ?_⟩
  · exact ((C2_extract_iff_success exSp exEnvOk "hhe35lt" "." none none exFS
      (by decide) (by decide)).1 (by decide)).1
  · exact ((C2_extract_iff_success exSp exEnvOk "hhe35lt" "." none none exFS
      (by decide) (by decide)).1 (by decide)).2
  · exact (C2_extract_iff_success exSp exEnvFail "hhe35lt" "." none none exFSStale
      (by decide) (by decide)).2.2 1 (by decide)

/-! ### Solver-spawn ordering -/

theorem runBody_symlink_before_proc (env : Env)
    (model modelpath rundir outdir outfile : String) (sp : Synspec) (fs : FS)
    (args : List String) (i o : String) (e : Option String) (c : String) (ch : Bool)
    (h : Ev.proc args i o e c ch ∈
      (runBody env model modelpath rundir outdir outfile sp fs).2.2.2) :
    ∃ b1 b2, (runBody env model modelpath rundir outdir outfile sp fs).2.2.2 =
      b1 ++ Ev.symlinked (model ++ ".7") (resolveIn rundir "fort.8") :: b2 ∧
      Ev.proc args i o e c ch ∈ b2 := by
  revert h
  simp only [runBody]
  have hdel : ∀ ev ∈ (removePotentialOutfiles outdir outfile fs).2,
      Ev.proc args i o e c ch = ev → False := by
    intro ev hev hc
    obtain ⟨p, hp⟩ := removePotentialOutfiles_tr_deleted outdir outfile fs ev hev
    rw [hp] at hc
    exact Ev.noConfusion hc
  split
  · next e2 sp' fs' trc heq =>
    have htrc : (copyToRundir env model modelpath rundir sp
        (removePotentialOutfiles outdir outfile fs).1).2.2.2 = trc := by rw [heq]
    intro h
    rcases List.mem_append.mp h with h1 | h1
    · exact absurd rfl (fun hh => hdel _ h1 hh)
    · obtain ⟨s2, d2, hp⟩ := copyToRundir_tr_symlinked env model modelpath rundir sp _ _
        (htrc ▸ h1)
      exact Ev.noConfusion hp
  · next sp' fs' trc heq =>
    have htrc : (copyToRundir env model modelpath rundir sp
        (removePotentialOutfiles outdir outfile fs).1).2.2.2 = trc := by rw [heq]
    have hcp : ∀ ev ∈ trc, Ev.proc args i o e c ch = ev → False := by
      intro ev hev hc
      obtain ⟨s2, d2, hp⟩ := copyToRundir_tr_symlinked env model modelpath rundir sp _ ev
        (htrc ▸ hev)
      rw [hp] at hc
      exact Ev.noConfusion hc
    have hnoA : ∀ (hmem : Ev.proc args i o e c ch ∈
        (removePotentialOutfiles outdir outfile fs).2 ++ trc), False := by
      intro hmem
      rcases List.mem_append.mp hmem with h2 | h2
      · exact hdel _ h2 rfl
      · exact hcp _ h2 rfl
    split
    · intro h
      exact absurd h hnoA
    · split
      · next e2 fs2 tr2 heq2 =>
        intro h
        obtain ⟨rest, hrest⟩ := runSolver_tr_head env sp'.synspec model rundir fs'
        have htr2 : tr2 = Ev.symlinked (model ++ ".7") (resolveIn rundir "fort.8") :: rest := by
          have h2 : (runSolver env sp'.synspec model rundir fs').2.2 = tr2 := by rw [heq2]
          rw [← h2, hrest]
        subst htr2
        refine ⟨(removePotentialOutfiles outdir outfile fs).2 ++ trc, rest, by simp, ?_⟩
        rcases List.mem_append.mp h with h1 | h1
        · exact absurd h1 hnoA
        · rcases List.mem_cons.mp h1 with h2 | h2
          · exact Ev.noConfusion h2
          · exact h2
      · next fs2 tr2 heq2 =>
        intro h
        obtain ⟨rest, hrest⟩ := runSolver_tr_head env sp'.synspec model rundir fs'
        have htr2 : tr2 = Ev.symlinked (model ++ ".7") (resolveIn rundir "fort.8") :: rest := by
          have h2 : (runSolver env sp'.synspec model rundir fs').2.2 = tr2 := by rw [heq2]
          rw [← h2, hrest]
        subst htr2
        refine ⟨(removePotentialOutfiles outdir outfile fs).2 ++ trc,
          rest ++ (extractOutfiles rundir outdir outfile fs2).2.2, by simp, ?_⟩
        rcases List.mem_append.mp h with h1 | h1
        · rcases List.mem_append.mp h1 with h2 | h2
          · exact absurd h2 hnoA
          · rcases List.mem_cons.mp h2 with h3 | h3
            · exact Ev.noConfusion h3
            · exact List.mem_append.mpr (Or.inl h3)
        · obtain ⟨s2, d2, hp⟩ := extractOutfiles_tr_copied rundir outdir outfile fs2 _ h1
          exact Ev.noConfusion hp

/-! ### Claim C6 -/

/-- C6 counterexample: in a concrete successful run the unique spawn
event binds standard input to the model descriptor and standard output
to `fort.log`, but standard error to nothing (`none`) — no spawn in the
trace has any standard-error binding, refuting the claim that both
standard output and standard error are bound to the log file. -/
theorem C6_counterexample_stderr_not_redirected :
    (Synspec.run exSp exEnvOk "hhe35lt" (some ".") none none exFS).tr.filter Ev.isProc =
      [Ev.proc ["synspec"] "/t/hhe35lt.5" "/t/fort.log" none "/t" true] ∧
    (Synspec.run exSp exEnvOk "hhe35lt" (some ".") none none exFS).tr.filter
      (fun ev => match ev with
        | Ev.proc _ _ _ (some _) _ _ => true
        | _ => false) = [] := by
  decide

/-- C6 (amended): the Runner first force-creates the
`fort.8 → {model}.7` link, then spawns the solver binary with no
arguments, standard input bound to `{model}.5`, standard output bound
to `fort.log`, standard error NOT redirected (inherited), the run
directory as working directory; a non-zero exit status is propagated to
the caller as an error carrying the exit code. -/
theorem C6_amended_runner_spawn :
    ∀ (sp : Synspec) (env : Env) (model rd : String)
      (outdir? outfile? : Option String) (fs0 : FS),
      fs0.isFile (rundirOf fs0 rd) = false →
      env.heldLocks.contains (rundirOf fs0 rd) = false →
      (∀ (args : List String) (i o : String) (e : Option String) (c : String) (ch : Bool),
        Ev.proc args i o e c ch ∈
          (Synspec.run sp env model (some rd) outdir? outfile? fs0).tr →
        args = [sp.synspec] ∧
        i = resolveIn (rundirOf fs0 rd) (modelNameOf fs0 model ++ ".5") ∧
        o = resolveIn (rundirOf fs0 rd) "fort.log" ∧ e = none ∧
        c = rundirOf fs0 rd ∧ ch = true) ∧
      (∀ (args : List String) (i o : String) (e : Option String) (c : String) (ch : Bool),
        Ev.proc args i o e c ch ∈
          (Synspec.run sp env model (some rd) outdir? outfile? fs0).tr →
        ∃ t1 t2, (Synspec.run sp env model (some rd) outdir? outfile? fs0).tr =
          t1 ++ Ev.symlinked (modelNameOf fs0 model ++ ".7")
            (resolveIn (rundirOf fs0 rd) "fort.8") :: t2 ∧
          Ev.proc args i o e c ch ∈ t2) ∧
      (∀ k, (Synspec.run sp env model (some rd) outdir? outfile? fs0).err =
          some (.calledProcessError k) →
        k = env.solverExit ∧ env.solverExit ≠ 0) := by
  intro sp env model rd outdir? outfile? fs0 hnf hnl
  rw [run_persistent_eq sp env model rd outdir? outfile? fs0 hnf hnl]
  dsimp only
  have hbody : ∀ (args : List String) (i o : String) (e : Option String) (c : String)
      (ch : Bool), Ev.proc args i o e c ch ∈
        Ev.lockAcq (rundirOf fs0 rd) "synspec.lock" ::
          (bodyOf sp env model rd outdir? outfile? fs0).2.2.2 ++
          [Ev.lockRel (rundirOf fs0 rd)] →
      Ev.proc args i o e c ch ∈ (bodyOf sp env model rd outdir? outfile? fs0).2.2.2 := by
    intro args i o e c ch hmem
    rcases List.mem_cons.mp hmem with h1 | h1
    · exact Ev.noConfusion h1
    rcases List.mem_append.mp h1 with h2 | h2
    · exact h2
    · simp at h2
  refine ⟨?_, ?_, ?_⟩
  · intro args i o e c ch hmem
    exact runBody_proc_canonical env (modelNameOf fs0 model) (resolveIn fs0.cwd model)
      (rundirOf fs0 rd) (outdirOf fs0 rd outdir?) (outfileOf fs0 model outfile?)
      sp (fsAfterMkdir fs0 rd) args i o e c ch (hbody args i o e c ch hmem)
  · intro args i o e c ch hmem
    obtain ⟨b1, b2, hsplit, hmem2⟩ := runBody_symlink_before_proc env
      (modelNameOf fs0 model) (resolveIn fs0.cwd model) (rundirOf fs0 rd)
      (outdirOf fs0 rd outdir?) (outfileOf fs0 model outfile?) sp (fsAfterMkdir fs0 rd)
      args i o e c ch (hbody args i o e c ch hmem)
    refine ⟨Ev.lockAcq (rundirOf fs0 rd) "synspec.lock" :: b1,
      b2 ++ [Ev.lockRel (rundirOf fs0 rd)], ?_, List.mem_append.mpr (Or.inl hmem2)⟩
    rw [show (bodyOf sp env model rd outdir? outfile? fs0).2.2.2 =
      b1 ++ Ev.symlinked (modelNameOf fs0 model ++ ".7")
        (resolveIn (rundirOf fs0 rd) "fort.8") :: b2 from hsplit]
    simp
  · intro k herr
    have := runBody_calledProcess_exit env (modelNameOf fs0 model)
      (resolveIn fs0.cwd model) (rundirOf fs0 rd) (outdirOf fs0 rd outdir?)
      (outfileOf fs0 model outfile?) sp (fsAfterMkdir fs0 rd) k herr
    exact ⟨this.2, this.1⟩

theorem C6_amended_runner_spawn_witness :
    ((["synspec"] : List String) = [exSp.synspec] ∧
      "/t/hhe35lt.5" = resolveIn (rundirOf exFS ".") (modelNameOf exFS "hhe35lt" ++ ".5") ∧
      "/t/fort.log" = resolveIn (rundirOf exFS ".") "fort.log" ∧
      (none : Option String) = none ∧ "/t" = rundirOf exFS "." ∧ true = true) ∧
    (∃ t1 t2, (Synspec.run exSp exEnvFail "hhe35lt" (some ".") none none exFS).tr =
      t1 ++ Ev.symlinked (modelNameOf exFS "hhe35lt" ++ ".7")
        (resolveIn (rundirOf exFS ".") "fort.8") :: t2 ∧
      Ev.proc ["synspec"] "/t/hhe35lt.5" "/t/fort.log" none "/t" true ∈ t2) ∧
    (1 = exEnvFail.solverExit ∧ exEnvFail.solverExit ≠ 0) := by
  refine ⟨?_, ?_, ?_⟩
  · exact (C6_amended_runner_spawn exSp exEnvOk "hhe35lt" "." none none exFS
      (by decide) (by decide)).1 ["synspec"] "/t/hhe35lt.5" "/t/fort.log" none "/t" true
      (by decide)
  · exact (C6_amended_runner_spawn exSp exEnvFail "hhe35lt" "." none none exFS
      (by decide) (by decide)).2.1 ["synspec"] "/t/hhe35lt.5" "/t/fort.log" none "/t" true
      (by decide)
  · exact (C6_amended_runner_spawn exSp exEnvFail "hhe35lt" "." none none exFS
      (by decide) (by decide)).2.2 1 (by decide)

/-! ### Claim C1 -/

/-- C1 counterexample: a destination directory holding stale artifacts
for the output name, a solver that fails — after the call the four data
artifacts are gone but the stale `hhe35lt.log` still exists, refuting
the claim that the log extension is covered by the pre-run cleanup. -/
theorem C1_counterexample_stale_log_survives :
    exFSStale.isFile "/t/hhe35lt.log" = true ∧
    (Synspec.run exSp exEnvFail "hhe35lt" (some ".") none none exFSStale).err =
      some (.calledProcessError 1) ∧
    (Synspec.run exSp exEnvFail "hhe35lt" (some ".") none none exFSStale).fs.isFile
      "/t/hhe35lt.log" = true := by
  decide

/-- C1 (amended): for every run in which the solver fails, none of the
four data artifacts (`spec`, `iden`, `eqws`, `cont`) of the requested
output name exists in the destination directory afterwards — the
pre-run cleanup deleted any stale copy and the failed run copied
nothing — provided the destination directory existed after the
run-directory `mkdir` and the run itself created no file at that exact
path (no staged link, log file or solver output collides with it). The
log artifact is NOT covered: `.log` is absent from the cleanup list, so
a stale `outfile.log` survives a failed run. -/
theorem C1_amended_failed_run_no_data_artifacts :
    ∀ (sp : Synspec) (env : Env) (model rd : String)
      (outdir? outfile? : Option String) (fs0 : FS) (ext : String) (k : Nat),
      ext ∈ (["spec", "iden", "eqws", "cont"] : List String) →
      fs0.files.Nodup →
      fs0.isFile (rundirOf fs0 rd) = false →
      env.heldLocks.contains (rundirOf fs0 rd) = false →
      (fsAfterMkdir fs0 rd).isDir (outdirOf fs0 rd outdir?) = true →
      (Synspec.run sp env model (some rd) outdir? outfile? fs0).err =
        some (.calledProcessError k) →
      (∀ ev ∈ (Synspec.run sp env model (some rd) outdir? outfile? fs0).tr,
        ev.createsP ≠ some (resolveIn (outdirOf fs0 rd outdir?)
          (outfileOf fs0 model outfile? ++ "." ++ ext))) →
      resolveIn (outdirOf fs0 rd outdir?)
          (outfileOf fs0 model outfile? ++ "." ++ ext) ∉
        (Synspec.run sp env model (some rd) outdir? outfile? fs0).fs.files := by
  intro sp env model rd outdir? outfile? fs0 ext k hext hnd hnf hnl hdir herr hnocreate
  rw [run_persistent_eq sp env model rd outdir? outfile? fs0 hnf hnl] at herr hnocreate ⊢
  dsimp only at herr hnocreate ⊢
  intro hmem
  have hframe := runBody_fail_frame env (modelNameOf fs0 model) (resolveIn fs0.cwd model)
    (rundirOf fs0 rd) (outdirOf fs0 rd outdir?) (outfileOf fs0 model outfile?)
    sp (fsAfterMkdir fs0 rd) k herr
    (resolveIn (outdirOf fs0 rd outdir?) (outfileOf fs0 model outfile? ++ "." ++ ext))
    hmem
  rcases hframe with h1 | ⟨ev, hev, hc⟩
  · have hnd2 : (fsAfterMkdir fs0 rd).files.Nodup := by
      have : (fsAfterMkdir fs0 rd).files = fs0.files := by
        simp only [fsAfterMkdir]
        split <;> rfl
      rw [this]
      exact hnd
    exact removePotentialOutfiles_not_mem (outdirOf fs0 rd outdir?)
      (outfileOf fs0 model outfile?) (fsAfterMkdir fs0 rd) hnd2 hdir ext hext h1
  · exact hnocreate ev (List.mem_cons_of_mem _ (List.mem_append.mpr (Or.inl hev))) hc

theorem C1_amended_failed_run_no_data_artifacts_witness :
    "/t/hhe35lt.spec" ∉
      (Synspec.run exSp exEnvFail "hhe35lt" (some ".") none none exFSStale).fs.files :=
  C1_amended_failed_run_no_data_artifacts exSp exEnvFail "hhe35lt" "." none none
    exFSStale "spec" 1 (by decide) (by decide) (by decide) (by decide) (by decide)
    (by decide) (by decide)

end Aeqwabun
